import Mathlib

/-!
Verification development for the stdio bridge protocol of the
mcp-server-godot repository.

The development shallowly embeds:

* `src/bridge/protocol.ts` — frame encoding/decoding (`encodeMessage`,
  `decodeMessage`, `extractMessages`);
* `src/bridge/bridge-client.ts` — the controller-side correlation client
  (`sendRequest`, `handleMessage`, `rejectAllPending`, process-exit
  handling, `hasCapability`);
* `addons/mcp_bridge/mcp_commands.gd` — the target-side command
  dispatcher (`MCPCommands.execute` and its handlers);
* `addons/mcp_bridge/mcp_bridge_autoload.gd` — the activation gate of
  the target-side delivery pump.

Strings are modelled as `List Char`; machine integers as `Nat`/`Int`.
Platform primitives used by the source (the JSON codec, base64 and UTF-8
conversion of `Buffer`/`Marshalls`, Godot's `Node.get_node_or_null`) are
modelled concretely and executably next to the repository code that calls
them.  All recursive definitions are structural (fuelled where the source
iterates on a shrinking buffer) so that every function evaluates inside
the kernel.
-/

namespace Bridge

/-! ### Generic list utilities (models of JS string primitives) -/
/-- Index of the first occurrence of character `c` in `l`
(model of `String.prototype.indexOf` for a one-character needle). -/
def charIndex (c : Char) : List Char → Option Nat
  | [] => none
  | x :: xs => if x = c then some 0 else (charIndex c xs).map (· + 1)

/-- Index of the first occurrence of `c` in `l` at position `start` or later
(model of `indexOf(needle, start)`). -/
def charIndexFrom (c : Char) (l : List Char) (start : Nat) : Option Nat :=
  (charIndex c (l.drop start)).map (· + start)

/-- Index of the first occurrence of the pattern `pat` as a contiguous
substring of `l` (model of `String.prototype.indexOf` for a string needle). -/
def substrIndex (pat : List Char) : List Char → Option Nat
  | [] => if pat.isPrefixOf [] then some 0 else none
  | x :: xs => if pat.isPrefixOf (x :: xs) then some 0 else (substrIndex pat xs).map (· + 1)

/-! ### Decimal digits (model of JS number serialization for integers) -/
/-- Little-endian base-10 digits of `n`, with explicit fuel so the
definition is structural and evaluates in the kernel. -/
def natDigitsAux : Nat → Nat → List Nat
  | 0, _ => []
  | fuel + 1, n => if n = 0 then [] else n % 10 :: natDigitsAux fuel (n / 10)

/-- Little-endian base-10 digits of `n` (empty for `0`). -/
def natDigits (n : Nat) : List Nat := natDigitsAux n n

/-- Value of a little-endian digit list. -/
def valLE : List Nat → Nat
  | [] => 0
  | d :: ds => d + 10 * valLE ds

/-- Character for the decimal digit `d`. -/
def digitChar (d : Nat) : Char := Char.ofNat (48 + d)

/-- Decimal character representation of a natural number. -/
def natToChars (n : Nat) : List Char :=
  if n = 0 then ['0'] else ((natDigits n).reverse).map digitChar

/-- Numeric value of a big-endian list of decimal digit characters. -/
def digitsToNat (ds : List Char) : Nat :=
  ds.foldl (fun a c => 10 * a + (c.toNat - 48)) 0

/-- Parse a run of decimal digits at the head of `l`
(the integer fragment of the platform JSON parser). -/
def parseNat (l : List Char) : Option (Nat × List Char) :=
  let ds := l.takeWhile Char.isDigit
  if ds.isEmpty then none else some (digitsToNat ds, l.dropWhile Char.isDigit)

/-- True when `l` does not start with a decimal digit, so that a decimal
number serialized immediately before `l` parses back unchanged. -/
def noDigitHead : List Char → Bool
  | [] => true
  | c :: _ => !c.isDigit

/-! ### JSON values

Model of the JSON-serializable values that `JSON.stringify` / `JSON.parse`
(on the controller side) and `JSON.stringify` / `JSON.parse_string` (on the
target side) exchange.  Numbers are modelled as integers; object fields keep
their insertion order, as JS objects and Godot dictionaries do. -/
inductive Json where
  | null
  | bool (b : Bool)
  | num (n : Int)
  | str (s : List Char)
  | arr (elems : List Json)
  | obj (fields : List (List Char × Json))

/-- Hexadecimal digit character (lowercase), for `\u00XX` escapes. -/
def digitCharHex (d : Nat) : Char :=
  if d < 10 then Char.ofNat (48 + d) else Char.ofNat (87 + d)

/-- Escape one character for inclusion in a JSON string literal.  Quotes and
backslashes get a backslash escape; control characters get a `\u00XX` escape;
everything else is emitted verbatim. -/
def escChar (c : Char) : List Char :=
  if c = '"' then ['\\', '"']
  else if c = '\\' then ['\\', '\\']
  else if c.toNat < 32 then
    ['\\', 'u', '0', '0', digitCharHex (c.toNat / 16), digitCharHex (c.toNat % 16)]
  else [c]

/-- Escape the body of a JSON string literal. -/
def escapeChars : List Char → List Char
  | [] => []
  | c :: cs => escChar c ++ escapeChars cs

mutual

/-- Serialize a JSON value (model of the platform `JSON.stringify`). -/
def jsonStringify : Json → List Char
  | .null => 'n' :: 'u' :: 'l' :: 'l' :: []
  | .bool true => 't' :: 'r' :: 'u' :: 'e' :: []
  | .bool false => 'f' :: 'a' :: 'l' :: 's' :: 'e' :: []
  | .num n => if n < 0 then '-' :: natToChars n.natAbs else natToChars n.natAbs
  | .str s => '"' :: escapeChars s ++ ['"']
  | .arr xs => '[' :: stringifyElems xs ++ [']']
  | .obj fs => '{' :: stringifyFields fs ++ ['}']

/-- Serialize the comma-separated elements of a JSON array. -/
def stringifyElems : List Json → List Char
  | [] => []
  | [x] => jsonStringify x
  | x :: xs => jsonStringify x ++ ',' :: stringifyElems xs

/-- Serialize the comma-separated fields of a JSON object. -/
def stringifyFields : List (List Char × Json) → List Char
  | [] => []
  | [(k, v)] => '"' :: escapeChars k ++ '"' :: ':' :: jsonStringify v
  | (k, v) :: fs => '"' :: escapeChars k ++ '"' :: ':' :: jsonStringify v ++ ',' :: stringifyFields fs

end

/-! ### JSON parsing

Model of the platform JSON parser, restricted to the grammar that
`jsonStringify` emits (no insignificant whitespace, integral numbers).
Failure returns `none`, matching the `try { JSON.parse(...) } catch` /
`JSON.parse_string == null` treatment in the source. -/
/-- Value of a hexadecimal digit character. -/
def hexVal (c : Char) : Option Nat :=
  if 48 ≤ c.toNat ∧ c.toNat ≤ 57 then some (c.toNat - 48)
  else if 97 ≤ c.toNat ∧ c.toNat ≤ 102 then some (c.toNat - 87)
  else if 65 ≤ c.toNat ∧ c.toNat ≤ 70 then some (c.toNat - 55)
  else none

/-- Parse the body of a JSON string literal after the opening quote, up to and
including the closing quote.  Returns the unescaped characters and the rest of
the input. -/
def parseStringRest : List Char → Option (List Char × List Char)
  | [] => none
  | c :: rest =>
    if c = '"' then some ([], rest)
    else if c = '\\' then
      match rest with
      | [] => none
      | e :: rest2 =>
        if e = '"' then (parseStringRest rest2).map (fun p => ('"' :: p.1, p.2))
        else if e = '\\' then (parseStringRest rest2).map (fun p => ('\\' :: p.1, p.2))
        else if e = 'u' then
          match rest2 with
          | h1 :: h2 :: h3 :: h4 :: rest3 =>
            match hexVal h1, hexVal h2, hexVal h3, hexVal h4 with
            | some v1, some v2, some v3, some v4 =>
              (parseStringRest rest3).map
                (fun p => (Char.ofNat (v1 * 4096 + v2 * 256 + v3 * 16 + v4) :: p.1, p.2))
            | _, _, _, _ => none
          | _ => none
        else none
    else (parseStringRest rest).map (fun p => (c :: p.1, p.2))

mutual

/-- Parse one JSON value at the head of the input.  The fuel argument makes
the recursion structural; it is decremented on entering each nested value or
element list. -/
def parseValue : Nat → List Char → Option (Json × List Char)
  | 0, _ => none
  | _ + 1, [] => none
  | fuel + 1, c :: rest =>
    if c = 'n' then
      if rest.take 3 = ['u', 'l', 'l'] then some (.null, rest.drop 3) else none
    else if c = 't' then
      if rest.take 3 = ['r', 'u', 'e'] then some (.bool true, rest.drop 3) else none
    else if c = 'f' then
      if rest.take 4 = ['a', 'l', 's', 'e'] then some (.bool false, rest.drop 4) else none
    else if c = '"' then
      (parseStringRest rest).map (fun p => (.str p.1, p.2))
    else if c = '[' then
      if rest.head? = some ']' then some (.arr [], rest.tail)
      else (parseElems fuel rest).map (fun p => (.arr p.1, p.2))
    else if c = '{' then
      if rest.head? = some '}' then some (.obj [], rest.tail)
      else (parseFields fuel rest).map (fun p => (.obj p.1, p.2))
    else if c = '-' then
      (parseNat rest).map (fun p => (.num (-(p.1 : Int)), p.2))
    else if c.isDigit then
      (parseNat (c :: rest)).map (fun p => (.num (p.1 : Int), p.2))
    else none

/-- Parse the elements of a non-empty JSON array after the opening bracket,
up to and including the closing bracket. -/
def parseElems : Nat → List Char → Option (List Json × List Char)
  | 0, _ => none
  | fuel + 1, input =>
    match parseValue fuel input with
    | none => none
    | some (v, r) =>
      match r with
      | ',' :: r2 => (parseElems fuel r2).map (fun p => (v :: p.1, p.2))
      | ']' :: r2 => some ([v], r2)
      | _ => none

/-- Parse the fields of a non-empty JSON object after the opening brace,
up to and including the closing brace. -/
def parseFields : Nat → List Char → Option (List (List Char × Json) × List Char)
  | 0, _ => none
  | fuel + 1, input =>
    match input with
    | '"' :: krest =>
      match parseStringRest krest with
      | none => none
      | some (k, r1) =>
        match r1 with
        | ':' :: r2 =>
          match parseValue fuel r2 with
          | none => none
          | some (v, r3) =>
            match r3 with
            | ',' :: r4 => (parseFields fuel r4).map (fun p => ((k, v) :: p.1, p.2))
            | '}' :: r4 => some ([(k, v)], r4)
            | _ => none
        | _ => none
    | _ => none

end

/-- Parse a complete JSON document: one value consuming the whole input
(model of the platform `JSON.parse`, strict about trailing text). -/
def jsonParse (input : List Char) : Option Json :=
  match parseValue (input.length + 1) input with
  | some (j, []) => some j
  | _ => none

/-! ### Sizes of JSON values (fuel bounds for the parser) -/
mutual

/-- Structural size of a JSON value, bounding the parser fuel it needs. -/
def sizeJ : Json → Nat
  | .null => 1
  | .bool _ => 1
  | .num _ => 1
  | .str _ => 1
  | .arr xs => 1 + sizeElems xs
  | .obj fs => 1 + sizeFields fs

/-- Structural size of a list of JSON array elements. -/
def sizeElems : List Json → Nat
  | [] => 1
  | x :: xs => sizeJ x + sizeElems xs

/-- Structural size of a list of JSON object fields. -/
def sizeFields : List (List Char × Json) → Nat
  | [] => 1
  | (_, v) :: fs => sizeJ v + sizeFields fs

end

/-! ### UTF-8 (model of `Buffer.from(s, "utf-8")` / `buffer.toString("utf-8")`) -/
/-- UTF-8 encoding of one character (1–4 bytes). -/
def utf8EncodeChar (c : Char) : List Nat :=
  let u := c.toNat
  if u < 128 then [u]
  else if u < 2048 then [192 + u / 64, 128 + u % 64]
  else if u < 65536 then [224 + u / 4096, 128 + u / 64 % 64, 128 + u % 64]
  else [240 + u / 262144, 128 + u / 4096 % 64, 128 + u / 64 % 64, 128 + u % 64]

/-- UTF-8 encoding of a character list as a byte (`Nat`) list. -/
def utf8Encode (s : List Char) : List Nat := s.flatMap utf8EncodeChar

/-- Decode one UTF-8 character from the head of a byte list; `none` on
malformed input. -/
def utf8DecodeChar : List Nat → Option (Char × List Nat)
  | [] => none
  | b :: rest =>
    if b < 128 then some (Char.ofNat b, rest)
    else if b < 192 then none
    else if b < 224 then
      match rest with
      | b2 :: rest2 =>
        if 128 ≤ b2 ∧ b2 < 192 then
          some (Char.ofNat ((b - 192) * 64 + (b2 - 128)), rest2)
        else none
      | [] => none
    else if b < 240 then
      match rest with
      | b2 :: b3 :: rest3 =>
        if (128 ≤ b2 ∧ b2 < 192) ∧ (128 ≤ b3 ∧ b3 < 192) then
          some (Char.ofNat ((b - 224) * 4096 + (b2 - 128) * 64 + (b3 - 128)), rest3)
        else none
      | _ => none
    else if b < 248 then
      match rest with
      | b2 :: b3 :: b4 :: rest4 =>
        if (128 ≤ b2 ∧ b2 < 192) ∧ (128 ≤ b3 ∧ b3 < 192) ∧ (128 ≤ b4 ∧ b4 < 192) then
          some (Char.ofNat ((b - 240) * 262144 + (b2 - 128) * 4096 + (b3 - 128) * 64 + (b4 - 128)),
            rest4)
        else none
      | _ => none
    else none

/-- Decode a UTF-8 byte list, one character per step; the fuel makes the
recursion structural, and one byte of fuel per character always suffices. -/
def utf8DecodeAux : Nat → List Nat → Option (List Char)
  | _, [] => some []
  | 0, _ :: _ => none
  | fuel + 1, b :: rest =>
    match utf8DecodeChar (b :: rest) with
    | none => none
    | some (c, rest2) => (utf8DecodeAux fuel rest2).map (c :: ·)

/-- UTF-8 decoding of a byte list; `none` on malformed input. -/
def utf8Decode (bs : List Nat) : Option (List Char) := utf8DecodeAux bs.length bs

/-! ### Base64 (model of `Buffer.toString("base64")` / `Buffer.from(s, "base64")`,
and of Godot's `Marshalls.utf8_to_base64` / `base64_to_utf8`) -/
/-- Character of the standard base64 alphabet at index `i < 64`. -/
def b64Char (i : Nat) : Char :=
  if i < 26 then Char.ofNat (65 + i)
  else if i < 52 then Char.ofNat (97 + (i - 26))
  else if i < 62 then Char.ofNat (48 + (i - 52))
  else if i = 62 then '+'
  else '/'

/-- Standard base64 encoding with `=` padding, three bytes per four
characters. -/
def bytesToBase64 : List Nat → List Char
  | [] => []
  | [a] => [b64Char (a / 4), b64Char (a % 4 * 16), '=', '=']
  | [a, b] => [b64Char (a / 4), b64Char (a % 4 * 16 + b / 16), b64Char (b % 16 * 4), '=']
  | a :: b :: c :: rest =>
    b64Char (a / 4) :: b64Char (a % 4 * 16 + b / 16) :: b64Char (b % 16 * 4 + c / 64) ::
      b64Char (c % 64) :: bytesToBase64 rest

/-- Index of a character in the base64 alphabet. -/
def b64Val (c : Char) : Option Nat :=
  if 65 ≤ c.toNat ∧ c.toNat ≤ 90 then some (c.toNat - 65)
  else if 97 ≤ c.toNat ∧ c.toNat ≤ 122 then some (c.toNat - 71)
  else if 48 ≤ c.toNat ∧ c.toNat ≤ 57 then some (c.toNat + 4)
  else if c = '+' then some 62
  else if c = '/' then some 63
  else none

/-- Standard base64 decoding with `=` padding; `none` on malformed input. -/
def base64ToBytes : List Char → Option (List Nat)
  | [] => some []
  | c1 :: c2 :: c3 :: c4 :: rest =>
    match b64Val c1, b64Val c2 with
    | some v1, some v2 =>
      if c3 = '=' ∧ c4 = '=' ∧ rest = [] then some [v1 * 4 + v2 / 16]
      else if c4 = '=' ∧ rest = [] then
        match b64Val c3 with
        | some v3 => some [v1 * 4 + v2 / 16, v2 % 16 * 16 + v3 / 4]
        | none => none
      else
        match b64Val c3, b64Val c4 with
        | some v3, some v4 =>
          (base64ToBytes rest).map
            (fun bs => (v1 * 4 + v2 / 16) :: (v2 % 16 * 16 + v3 / 4) :: (v3 % 4 * 64 + v4) :: bs)
        | _, _ => none
    | _, _ => none
  | _ => some []

/-! ### Bridge messages and the frame codec (`src/bridge/protocol.ts`) -/
/-- The three admissible values of a bridge message's `type` field. -/
inductive MsgType where
  | request
  | response
  | event
deriving DecidableEq

/-- Wire spelling of a message type. -/
def msgTypeChars : MsgType → List Char
  | .request => "request".data
  | .response => "response".data
  | .event => "event".data

/-- Recognize a message-type string
(the `["request", "response", "event"].includes(parsed.type)` check). -/
def msgTypeOfChars (s : List Char) : Option MsgType :=
  if s = "request".data then some .request
  else if s = "response".data then some .response
  else if s = "event".data then some .event
  else none

/-- A bridge message (`BridgeMessage` in `src/bridge/types.ts`): a string id,
a type, a command string, an optional payload and an optional error value.
Absent optional fields are omitted from the serialized JSON object, as
`JSON.stringify` omits `undefined` properties. -/
structure BridgeMessage where
  id : List Char
  type : MsgType
  command : List Char
  payload : Option Json
  error : Option Json

/-- First value bound to `key` in a JSON object's field list
(JS property access on a parsed object). -/
def jGet (fields : List (List Char × Json)) (key : List Char) : Option Json :=
  match fields with
  | [] => none
  | (k, v) :: rest => if k = key then some v else jGet rest key

/-- The JSON object that `JSON.stringify` serializes for a bridge message. -/
def msgToJson (m : BridgeMessage) : Json :=
  .obj ([("id".data, .str m.id), ("type".data, .str (msgTypeChars m.type)),
      ("command".data, .str m.command)]
    ++ (match m.payload with | some p => [("payload".data, p)] | none => [])
    ++ (match m.error with | some e => [("error".data, e)] | none => []))

/-- The frame marker opening token (`PREFIX` in `protocol.ts`). -/
def PREFIX : List Char := "[MCP_BRIDGE:".data

/-- The frame marker closing token (`SUFFIX` in `protocol.ts`). -/
def SUFFIX : List Char := "]".data

/-- Encode a bridge message for transmission (`encodeMessage`):
JSON-serialize, base64 the UTF-8 bytes, and wrap in the frame markers. -/
def encodeMessage (msg : BridgeMessage) : List Char :=
  PREFIX ++ bytesToBase64 (utf8Encode (jsonStringify (msgToJson msg))) ++ SUFFIX

/-- The basic-validation block of `decodeMessage`: the parsed value must be an
object whose `id` and `command` are strings and whose `type` is one of the
three admissible type strings; the message is the parsed record itself. -/
def validateMessage (j : Json) : Option BridgeMessage :=
  match j with
  | .obj fields =>
    match jGet fields "id".data, jGet fields "type".data, jGet fields "command".data with
    | some (.str i), some (.str t), some (.str c) =>
      match msgTypeOfChars t with
      | some ty =>
        some { id := i, type := ty, command := c,
               payload := jGet fields "payload".data, error := jGet fields "error".data }
      | none => none
    | _, _, _ => none
  | _ => none

/-- Decode a bridge message (`decodeMessage`): check the frame markers, strip
them, base64-decode, UTF-8-decode, JSON-parse, and validate.  Every failure
returns `none`, as the source returns `null` from its checks and its
`try`/`catch`. -/
def decodeMessage (line : List Char) : Option BridgeMessage :=
  if PREFIX.isPrefixOf line ∧ SUFFIX.isSuffixOf line then
    match base64ToBytes ((line.drop PREFIX.length).dropLast) with
    | none => none
    | some bytes =>
      match utf8Decode bytes with
      | none => none
      | some chars =>
        match jsonParse chars with
        | none => none
        | some parsed => validateMessage parsed
  else none

/-! ### Frame extraction (`extractMessages` in `src/bridge/protocol.ts`) -/
/-- Result record of `extractMessages`: decoded messages, the unconsumed
buffer tail, and the text classified as ordinary (non-bridge) output. -/
structure ExtractResult where
  messages : List BridgeMessage
  remaining : List Char
  nonBridgeText : List Char

/-- One `while (true)` pass of `extractMessages`.  The fuel only makes the
recursion structural: every iteration that continues the loop consumes at
least one character, so `length + 1` fuel always runs the loop to its
`break`. -/
def extractLoop : Nat → List Char → ExtractResult
  | 0, remaining => { messages := [], remaining := remaining, nonBridgeText := [] }
  | fuel + 1, remaining =>
    match substrIndex PREFIX remaining with
    | none =>
      -- no more markers, everything is non-bridge text
      { messages := [], remaining := [], nonBridgeText := remaining }
    | some startIdx =>
      -- text before the marker is non-bridge text
      let pre := remaining.take startIdx
      match charIndexFrom ']' remaining startIdx with
      | none =>
        -- incomplete message, keep it in remaining
        { messages := [], remaining := remaining.drop startIdx, nonBridgeText := pre }
      | some endIdx =>
        let fullMessage := (remaining.take (endIdx + 1)).drop startIdx
        let r := extractLoop fuel (remaining.drop (endIdx + 1))
        { messages := (match decodeMessage fullMessage with
            | some m => [m]
            | none => []) ++ r.messages,
          remaining := r.remaining,
          nonBridgeText := pre ++ r.nonBridgeText }

/-- Extract bridge messages from a text buffer (`extractMessages`). -/
def extractMessages (buffer : List Char) : ExtractResult :=
  extractLoop (buffer.length + 1) buffer

/-! ### Correlation client (`src/bridge/bridge-client.ts`)

The client's continuations (`resolve`/`reject` of each pending promise, the
event and disconnect listeners) are modelled as an effect list: settling a
pending request with an outcome, emitting an event, or emitting the
`disconnected` signal.  The `Map` of pending requests is an association list
in insertion order, as JS `Map` iteration is. -/
/-- Failure values a pending request or `sendRequest` caller can observe. -/
inductive ClientError where
  | notConnected
  | timedOut (command : List Char) (timeoutMs : Nat)
  | responseError (e : Json)
  | processExited
  | processError
  | bridgeDestroyed

/-- How a pending request is settled. -/
inductive Outcome where
  | resolved (payload : Option Json)
  | rejected (e : ClientError)

/-- Observable effects of the client's handlers. -/
inductive Effect where
  | settle (id : List Char) (o : Outcome)
  | event (msg : BridgeMessage)
  | disconnected

/-- What the client remembers about one pending request (the data captured
by its timeout closure). -/
structure PendingInfo where
  command : List Char
  timeoutMs : Nat

/-- The client's mutable state: `_isConnected`, `_capabilities`, `_version`,
and the `pendingRequests` map. -/
structure ClientState where
  isConnected : Bool
  capabilities : List (List Char)
  version : List Char
  pending : List (List Char × PendingInfo)

/-- The state a fresh `BridgeClient` starts in. -/
def initialState : ClientState :=
  { isConnected := false, capabilities := [], version := [], pending := [] }

/-- Lookup in the pending map (`pendingRequests.get(id)`). -/
def lookupPending : List (List Char × PendingInfo) → List Char → Option PendingInfo
  | [], _ => none
  | e :: rest, k => if e.1 = k then some e.2 else lookupPending rest k

/-- Deletion from the pending map (`pendingRequests.delete(id)`; keys are
unique in a JS `Map`, so removing every entry with the key is the same
operation). -/
def erasePending : List (List Char × PendingInfo) → List Char → List (List Char × PendingInfo)
  | [], _ => []
  | e :: rest, k => if e.1 = k then erasePending rest k else e :: erasePending rest k

/-- JS truthiness of a JSON value (the `if (msg.error)` test). -/
def isTruthy : Json → Bool
  | .null => false
  | .bool b => b
  | .num n => n != 0
  | .str s => !s.isEmpty
  | .arr _ => true
  | .obj _ => true

/-- Embedding of `handleMessage`: a `response` settles the matching pending request (if
any) — rejecting on a truthy `error` field, resolving with the payload
otherwise — and removes it from the pending map after clearing its timer;
an `event` is forwarded to the event listener; anything else is ignored. -/
def handleMessage (st : ClientState) (msg : BridgeMessage) : ClientState × List Effect :=
  match msg.type with
  | .response =>
    match lookupPending st.pending msg.id with
    | some _ =>
      let st2 := { st with pending := erasePending st.pending msg.id }
      match msg.error with
      | some e =>
        if isTruthy e then (st2, [.settle msg.id (.rejected (.responseError e))])
        else (st2, [.settle msg.id (.resolved msg.payload)])
      | none => (st2, [.settle msg.id (.resolved msg.payload)])
    | none => (st, [])
  | .event => (st, [.event msg])
  | .request => (st, [])

/-- Embedding of `rejectAllPending`: walk the pending map in insertion order, rejecting
each entry with the given error and deleting it; returns the emptied map and
the rejection effects. -/
def rejectAllPending : List (List Char × PendingInfo) → ClientError →
    List (List Char × PendingInfo) × List Effect
  | [], _ => ([], [])
  | e :: rest, err =>
    let r := rejectAllPending rest err
    (r.1, .settle e.1 (.rejected err) :: r.2)

/-- The `process.on("exit")` handler: clear `_isConnected`, reject every
pending request with a `Process exited` error, emit `disconnected`.
`_capabilities` and `_version` are not touched by this handler. -/
def processExit (st : ClientState) : ClientState × List Effect :=
  let r := rejectAllPending st.pending .processExited
  ({ st with isConnected := false, pending := r.1 }, r.2 ++ [.disconnected])

/-- The `process.on("error")` handler: identical to exit, with a
`Process error` error. -/
def processErrorEvent (st : ClientState) : ClientState × List Effect :=
  let r := rejectAllPending st.pending .processError
  ({ st with isConnected := false, pending := r.1 }, r.2 ++ [.disconnected])

/-- Result of a `sendRequest` call: either it throws synchronously, or it
registers a pending request and writes one frame to the target's stdin. -/
inductive SendResult where
  | threw (e : ClientError)
  | sent (st2 : ClientState) (wrote : List Char)

/-- Embedding of `sendRequest`: not-connected commands other than `handshake` throw
immediately; otherwise a fresh id (passed in for `randomUUID()`) is
registered as pending with its deadline data and the encoded request frame
plus a newline is written. -/
def sendRequest (st : ClientState) (newId : List Char) (command : List Char)
    (payload : Option Json) (timeoutMs : Nat) : SendResult :=
  if st.isConnected = false ∧ command ≠ "handshake".data then .threw .notConnected
  else
    let msg : BridgeMessage :=
      { id := newId, type := .request, command := command, payload := payload, error := none }
    .sent { st with pending := st.pending ++ [(newId, ⟨command, timeoutMs⟩)] }
      (encodeMessage msg ++ ['\n'])

/-- The `setTimeout` callback of a pending request: when it fires (its timer
not having been cleared, i.e. the id still pending), it deletes the pending
entry and rejects with a timeout error carrying the command and deadline. -/
def timeoutFire (st : ClientState) (id : List Char) : ClientState × List Effect :=
  match lookupPending st.pending id with
  | some info =>
    ({ st with pending := erasePending st.pending id },
      [.settle id (.rejected (.timedOut info.command info.timeoutMs))])
  | none => (st, [])

/-- The success path of `handshake()`: mark connected and record the
advertised capability list and version, with the source's
`response.capabilities || []` and `response.version || "unknown"` defaults. -/
def handshakeApply (st : ClientState) (version : Option (List Char))
    (capabilities : Option (List (List Char))) : ClientState :=
  { st with isConnected := true, capabilities := capabilities.getD [],
            version := version.getD "unknown".data }

/-- Embedding of `hasCapability`: membership in the recorded capability list. -/
def hasCapability (st : ClientState) (cap : List Char) : Bool :=
  st.capabilities.contains cap

/-- Deliver a list of decoded messages to `handleMessage` in order,
accumulating the effects. -/
def deliver : ClientState → List BridgeMessage → ClientState × List Effect
  | st, [] => (st, [])
  | st, msg :: rest =>
    let r1 := handleMessage st msg
    let r2 := deliver r1.1 rest
    (r2.1, r1.2 ++ r2.2)

end Bridge

namespace MCP

open Bridge

/-! ### Target-side protocol helpers (`addons/mcp_bridge/mcp_protocol.gd`) -/
/-- Embedding of `MCPProtocol.create_response`: a success response dictionary. -/
def create_response (request_id command : List Char) (payload : Json) : Json :=
  .obj [("id".data, .str request_id), ("type".data, .str "response".data),
    ("command".data, .str command), ("payload".data, payload)]

/-- Embedding of `MCPProtocol.create_error_response`: an error response dictionary with a
null payload and a structured `{code, message}` error. -/
def create_error_response (request_id command code message : List Char) : Json :=
  .obj [("id".data, .str request_id), ("type".data, .str "response".data),
    ("command".data, .str command), ("payload".data, .null),
    ("error".data, .obj [("code".data, .str code), ("message".data, .str message)])]

/-! ### Engine model

The slice of the Godot engine the dispatcher touches: the scene tree as a
tree of named nodes, the viewport image, the resource table, the input map,
and the result of dynamic method calls.  A node carries the name, class,
engine path, exported serializable properties (the editor-usage and
allow-list filtering of `_get_exported_properties` is modelled as already
applied), and method names used by the handlers. -/
inductive GNode where
  | mk (name : List Char) (className : List Char) (path : List Char)
      (props : List (List Char × Json)) (methods : List (List Char))
      (children : List GNode)

def GNode.name : GNode → List Char
  | ⟨n, _, _, _, _, _⟩ => n

def GNode.className : GNode → List Char
  | ⟨_, c, _, _, _, _⟩ => c

def GNode.path : GNode → List Char
  | ⟨_, _, p, _, _, _⟩ => p

def GNode.props : GNode → List (List Char × Json)
  | ⟨_, _, _, ps, _, _⟩ => ps

def GNode.methods : GNode → List (List Char)
  | ⟨_, _, _, _, ms, _⟩ => ms

def GNode.children : GNode → List GNode
  | ⟨_, _, _, _, _, cs⟩ => cs

/-- The scene tree: its topmost node (the root viewport, named `root`) and
the current scene, `null` when no scene is loaded. -/
structure SceneTree where
  root : GNode
  current_scene : Option GNode

/-- An image the viewport capture produced, with its pre-encoded PNG and
JPEG byte buffers. -/
structure Image where
  width : Nat
  height : Nat
  pngData : List Nat
  jpgData : List Nat

/-- The engine surface visible to the dispatcher. `callvResult` models the
result of `node.callv(method, args)` as a function of the node's path, the
method name and the arguments. -/
structure EngineState where
  tree : Option SceneTree
  viewportImage : Option Image
  resourcePaths : List (List Char)
  changeSceneResult : Nat
  inputActions : List (List Char)
  callvResult : List Char → List Char → List Json → Json

/-- First child with the given name (`Node::_get_child_by_name`). -/
def getChildByName : List GNode → List Char → Option GNode
  | [], _ => none
  | c :: rest, seg => if c.name = seg then some c else getChildByName rest seg

/-- Walk a node-path segment list downward from a node.  `.` stays at the
current node; `..` (parent traversal) is not modelled and fails, which no
verified property exercises. -/
def descendPath (n : GNode) : List (List Char) → Option GNode
  | [] => some n
  | seg :: rest =>
    if seg = ".".data then descendPath n rest
    else if seg = "..".data then none
    else
      match getChildByName n.children seg with
      | some child => descendPath child rest
      | none => none

/-- Split a node path into its `/`-separated segments, dropping empty
segments. -/
def splitSegsGo : List Char → List Char → List (List Char)
  | [], cur => if cur.isEmpty then [] else [cur.reverse]
  | c :: rest, cur =>
    if c = '/' then
      (if cur.isEmpty then splitSegsGo rest [] else cur.reverse :: splitSegsGo rest [])
    else splitSegsGo rest (c :: cur)

def splitSegs (p : List Char) : List (List Char) := splitSegsGo p []

/-- Modelled from Godot's `Node::get_node_or_null`: an empty path resolves to
null; an absolute path (leading `/`) starts above the tree's topmost node, so
its first segment must equal that node's name (`root`) before descending; a
relative path descends from the node the call is made on. -/
def get_node_or_null (tree : SceneTree) (startNode : GNode) (path : List Char) : Option GNode :=
  if path.isEmpty then none
  else if path.head? = some '/' then
    match splitSegs path with
    | [] => none
    | seg :: rest => if seg = tree.root.name then descendPath tree.root rest else none
  else descendPath startNode (splitSegs path)

/-! ### Command dispatcher (`MCPCommands` in `addons/mcp_bridge/mcp_commands.gd`)

GDScript typed assignments (`var x: String = payload.get(...)`) raise a
runtime error when the value has the wrong type; the handlers model that as
`none`.  Engine-side mutations (`node.set`, `callv` side effects,
`change_scene_to_file`, `Input.*`) happen outside the returned dictionary and
are not tracked: the model maps each inbound message to its response. -/
def VERSION : List Char := "1.0".data

def CAPABILITIES : List (List Char) :=
  ["screenshot".data, "nodes".data, "input".data, "scene".data]

/-- Embedding of `Dictionary.get(key, default)`. -/
def dictGet (d : List (List Char × Json)) (k : List Char) (default : Json) : Json :=
  match jGet d k with
  | some v => v
  | none => default

def asString : Json → Option (List Char)
  | .str s => some s
  | _ => none

def asBool : Json → Option Bool
  | .bool b => some b
  | _ => none

def asNum : Json → Option Int
  | .num n => some n
  | _ => none

def asArray : Json → Option (List Json)
  | .arr xs => some xs
  | _ => none

/-- Embedding of `_get_node_by_path`: a path starting with `/root` has that marker
stripped (`substr(5)`) and is resolved from the tree's topmost node;
any other path is resolved relative to the current scene; with no current
scene (or no scene tree) the result is null. -/
def get_node_by_path (st : EngineState) (path : List Char) : Option GNode :=
  match st.tree with
  | none => none
  | some tree =>
    if "/root".data.isPrefixOf path then get_node_or_null tree tree.root (path.drop 5)
    else
      match tree.current_scene with
      | some cs => get_node_or_null tree cs path
      | none => none

/-- Embedding of `_get_scene_root`: the current scene, null when absent. -/
def get_scene_root (st : EngineState) : Option GNode :=
  match st.tree with
  | none => none
  | some tree => tree.current_scene

mutual

/-- Embedding of `_serialize_node`: name, class, engine path and exported properties,
plus the recursively serialized children when requested and present. -/
def serialize_node : GNode → Bool → Json
  | ⟨name, className, path, props, _, children⟩, include_children =>
    .obj ([("name".data, .str name), ("type".data, .str className),
        ("path".data, .str path), ("properties".data, .obj props)] ++
      (if include_children && !children.isEmpty then
        [("children".data, .arr (serialize_children children))]
      else []))

def serialize_children : List GNode → List Json
  | [] => []
  | c :: rest => serialize_node c true :: serialize_children rest

end

def serialize_node_tree (n : GNode) : Json := serialize_node n true

def handle_handshake (request_id : List Char) (_payload : Json) : Json :=
  create_response request_id "handshake".data
    (.obj [("version".data, .str VERSION),
      ("capabilities".data, .arr (CAPABILITIES.map .str))])

def handle_screenshot (st : EngineState) (request_id : List Char) (payload : Json) :
    Option Json :=
  let formatO :=
    match payload with
    | .obj d => asString (dictGet d "format".data (.str "png".data))
    | _ => some "png".data
  match formatO with
  | none => none
  | some format =>
    -- await RenderingServer.frame_post_draw: the render checkpoint suspension
    -- carries no state in this model
    match st.tree with
    | none =>
      some (create_error_response request_id "screenshot".data "NO_VIEWPORT".data
        "Could not find main viewport".data)
    | some _ =>
      match st.viewportImage with
      | none =>
        some (create_error_response request_id "screenshot".data "CAPTURE_FAILED".data
          "Failed to capture viewport image".data)
      | some img =>
        let buffer := if format = "jpeg".data ∨ format = "jpg".data then img.jpgData
          else img.pngData
        some (create_response request_id "screenshot".data
          (.obj [("data".data, .str (bytesToBase64 buffer)), ("width".data, .num img.width),
            ("height".data, .num img.height)]))

def handle_get_scene_tree (st : EngineState) (request_id : List Char) (_payload : Json) : Json :=
  match get_scene_root st with
  | none =>
    create_error_response request_id "get_scene_tree".data "NO_SCENE".data "No scene loaded".data
  | some root =>
    create_response request_id "get_scene_tree".data
      (.obj [("root".data, serialize_node_tree root)])

def handle_get_node (st : EngineState) (request_id : List Char) (payload : Json) : Option Json :=
  match payload with
  | .obj d =>
    match jGet d "path".data with
    | none =>
      some (create_error_response request_id "get_node".data "INVALID_PARAMS".data
        "Missing 'path' parameter".data)
    | some _ =>
      match asString (dictGet d "path".data (.str [])) with
      | none => none
      | some node_path =>
        match get_node_by_path st node_path with
        | none =>
          some (create_error_response request_id "get_node".data "NODE_NOT_FOUND".data
            ("Node not found: ".data ++ node_path))
        | some node =>
          some (create_response request_id "get_node".data
            (.obj [("node".data, serialize_node node false)]))
  | _ =>
    some (create_error_response request_id "get_node".data "INVALID_PARAMS".data
      "Missing 'path' parameter".data)

def handle_set_property (st : EngineState) (request_id : List Char) (payload : Json) :
    Option Json :=
  match payload with
  | .obj d =>
    match asString (dictGet d "path".data (.str [])),
        asString (dictGet d "property".data (.str [])) with
    | some node_path, some property =>
      if node_path.isEmpty ∨ property.isEmpty then
        some (create_error_response request_id "set_property".data "INVALID_PARAMS".data
          "Missing 'path' or 'property' parameter".data)
      else
        match get_node_by_path st node_path with
        | none =>
          some (create_error_response request_id "set_property".data "NODE_NOT_FOUND".data
            ("Node not found: ".data ++ node_path))
        | some node =>
          if (jGet node.props property).isNone then
            some (create_error_response request_id "set_property".data
              "PROPERTY_NOT_FOUND".data ("Property not found: ".data ++ property))
          else
            -- node.set(property, value): engine mutation, outside the response model
            some (create_response request_id "set_property".data
              (.obj [("success".data, .bool true)]))
    | _, _ => none
  | _ =>
    some (create_error_response request_id "set_property".data "INVALID_PARAMS".data
      "Invalid payload".data)

def handle_call_method (st : EngineState) (request_id : List Char) (payload : Json) :
    Option Json :=
  match payload with
  | .obj d =>
    match asString (dictGet d "path".data (.str [])),
        asString (dictGet d "method".data (.str [])),
        asArray (dictGet d "args".data (.arr [])) with
    | some node_path, some method, some args =>
      if node_path.isEmpty ∨ method.isEmpty then
        some (create_error_response request_id "call_method".data "INVALID_PARAMS".data
          "Missing 'path' or 'method' parameter".data)
      else
        match get_node_by_path st node_path with
        | none =>
          some (create_error_response request_id "call_method".data "NODE_NOT_FOUND".data
            ("Node not found: ".data ++ node_path))
        | some node =>
          if !(node.methods.contains method) then
            some (create_error_response request_id "call_method".data "METHOD_NOT_FOUND".data
              ("Method not found: ".data ++ method))
          else
            some (create_response request_id "call_method".data
              (.obj [("result".data, st.callvResult node.path method args)]))
    | _, _, _ => none
  | _ =>
    some (create_error_response request_id "call_method".data "INVALID_PARAMS".data
      "Invalid payload".data)

def handle_change_scene (st : EngineState) (request_id : List Char) (payload : Json) :
    Option Json :=
  match payload with
  | .obj d =>
    match jGet d "scenePath".data with
    | none =>
      some (create_error_response request_id "change_scene".data "INVALID_PARAMS".data
        "Missing 'scenePath' parameter".data)
    | some _ =>
      match asString (dictGet d "scenePath".data (.str [])) with
      | none => none
      | some scene_path =>
        if !(st.resourcePaths.contains scene_path) then
          some (create_error_response request_id "change_scene".data "SCENE_NOT_FOUND".data
            ("Scene not found: ".data ++ scene_path))
        else
          match st.tree with
          | none =>
            some (create_error_response request_id "change_scene".data "NO_SCENE_TREE".data
              "Could not get SceneTree".data)
          | some _ =>
            if st.changeSceneResult ≠ 0 then
              some (create_error_response request_id "change_scene".data "CHANGE_FAILED".data
                ("Failed to change scene: ".data ++ natToChars st.changeSceneResult))
            else
              some (create_response request_id "change_scene".data
                (.obj [("success".data, .bool true)]))
  | _ =>
    some (create_error_response request_id "change_scene".data "INVALID_PARAMS".data
      "Missing 'scenePath' parameter".data)

def handle_input_action (st : EngineState) (request_id : List Char) (payload : Json) :
    Option Json :=
  match payload with
  | .obj d =>
    match asString (dictGet d "action".data (.str [])),
        asBool (dictGet d "pressed".data (.bool true)),
        asNum (dictGet d "strength".data (.num 1)) with
    | some action, some _, some _ =>
      if action.isEmpty then
        some (create_error_response request_id "input_action".data "INVALID_PARAMS".data
          "Missing 'action' parameter".data)
      else if !(st.inputActions.contains action) then
        some (create_error_response request_id "input_action".data "ACTION_NOT_FOUND".data
          ("Input action not found: ".data ++ action))
      else
        -- Input.action_press / action_release: engine side effect
        some (create_response request_id "input_action".data
          (.obj [("success".data, .bool true)]))
    | _, _, _ => none
  | _ =>
    some (create_error_response request_id "input_action".data "INVALID_PARAMS".data
      "Invalid payload".data)

def handle_input_key (_st : EngineState) (request_id : List Char) (payload : Json) :
    Option Json :=
  match payload with
  | .obj d =>
    match asNum (dictGet d "keycode".data (.num 0)),
        asBool (dictGet d "pressed".data (.bool true)),
        asBool (dictGet d "shift".data (.bool false)),
        asBool (dictGet d "ctrl".data (.bool false)),
        asBool (dictGet d "alt".data (.bool false)),
        asBool (dictGet d "meta".data (.bool false)) with
    | some _, some _, some _, some _, some _, some _ =>
      -- Input.parse_input_event: engine side effect
      some (create_response request_id "input_key".data (.obj [("success".data, .bool true)]))
    | _, _, _, _, _, _ => none
  | _ =>
    some (create_error_response request_id "input_key".data "INVALID_PARAMS".data
      "Invalid payload".data)

def handle_input_mouse_button (_st : EngineState) (request_id : List Char) (payload : Json) :
    Option Json :=
  match payload with
  | .obj d =>
    match asNum (dictGet d "button".data (.num 1)),
        asBool (dictGet d "pressed".data (.bool true)) with
    | some _, some _ =>
      match dictGet d "position".data (.obj []) with
      | .obj pd =>
        match asNum (dictGet pd "x".data (.num 0)), asNum (dictGet pd "y".data (.num 0)) with
        | some _, some _ =>
          some (create_response request_id "input_mouse_button".data
            (.obj [("success".data, .bool true)]))
        | _, _ => none
      | _ =>
        some (create_response request_id "input_mouse_button".data
          (.obj [("success".data, .bool true)]))
    | _, _ => none
  | _ =>
    some (create_error_response request_id "input_mouse_button".data "INVALID_PARAMS".data
      "Invalid payload".data)

def handle_input_mouse_motion (_st : EngineState) (request_id : List Char) (payload : Json) :
    Option Json :=
  match payload with
  | .obj d =>
    match dictGet d "relative".data (.obj []) with
    | .obj rd =>
      match asNum (dictGet rd "x".data (.num 0)), asNum (dictGet rd "y".data (.num 0)) with
      | some _, some _ =>
        match dictGet d "position".data .null with
        | .obj pd =>
          match asNum (dictGet pd "x".data (.num 0)), asNum (dictGet pd "y".data (.num 0)) with
          | some _, some _ =>
            some (create_response request_id "input_mouse_motion".data
              (.obj [("success".data, .bool true)]))
          | _, _ => none
        | _ =>
          some (create_response request_id "input_mouse_motion".data
            (.obj [("success".data, .bool true)]))
      | _, _ => none
    | _ =>
      match dictGet d "position".data .null with
      | .obj pd =>
        match asNum (dictGet pd "x".data (.num 0)), asNum (dictGet pd "y".data (.num 0)) with
        | some _, some _ =>
          some (create_response request_id "input_mouse_motion".data
            (.obj [("success".data, .bool true)]))
        | _, _ => none
      | _ =>
        some (create_response request_id "input_mouse_motion".data
          (.obj [("success".data, .bool true)]))
  | _ =>
    some (create_error_response request_id "input_mouse_motion".data "INVALID_PARAMS".data
      "Invalid payload".data)

/-- The command strings `MCPCommands.execute` dispatches on. -/
def knownCommands : List (List Char) :=
  ["handshake".data, "screenshot".data, "get_scene_tree".data, "get_node".data,
    "set_property".data, "call_method".data, "change_scene".data, "input_action".data,
    "input_key".data, "input_mouse_button".data, "input_mouse_motion".data]

/-- Embedding of `MCPCommands.execute`: extract `command`, `id` and `payload` from the
message dictionary and dispatch on the command string; any unknown command
maps to an `UNKNOWN_COMMAND` error response.  `none` models a GDScript
runtime error (a typed assignment receiving a wrong-typed value). -/
def execute (st : EngineState) (msg : List (List Char × Json)) : Option Json :=
  match asString (dictGet msg "command".data (.str [])) with
  | none => none
  | some command =>
    match asString (dictGet msg "id".data (.str [])) with
    | none => none
    | some request_id =>
      let payload := dictGet msg "payload".data (.obj [])
      if command = "handshake".data then some (handle_handshake request_id payload)
      else if command = "screenshot".data then handle_screenshot st request_id payload
      else if command = "get_scene_tree".data then
        some (handle_get_scene_tree st request_id payload)
      else if command = "get_node".data then handle_get_node st request_id payload
      else if command = "set_property".data then handle_set_property st request_id payload
      else if command = "call_method".data then handle_call_method st request_id payload
      else if command = "change_scene".data then handle_change_scene st request_id payload
      else if command = "input_action".data then handle_input_action st request_id payload
      else if command = "input_key".data then handle_input_key st request_id payload
      else if command = "input_mouse_button".data then
        handle_input_mouse_button st request_id payload
      else if command = "input_mouse_motion".data then
        handle_input_mouse_motion st request_id payload
      else
        some (create_error_response request_id command "UNKNOWN_COMMAND".data
          ("Unknown command: ".data ++ command))

end MCP

namespace MCPAutoload

/-! ### Target-side activation gate
(`addons/mcp_bridge/mcp_bridge_autoload.gd`) -/
/-- The facts `_should_activate` queries from the OS singleton. -/
structure OSFacts where
  is_debug_build : Bool
  cmdline_args : List (List Char)
  cmdline_user_args : List (List Char)

/-- Embedding of `_should_activate`: a debug build launched with the `--mcp-bridge` flag
among either the engine or the user command-line arguments. -/
def should_activate (os : OSFacts) : Bool :=
  if !os.is_debug_build then false
  else
    os.cmdline_args.contains "--mcp-bridge".data ||
      os.cmdline_user_args.contains "--mcp-bridge".data

/-- What `_ready` sets up: the run flag, the stdin reader thread, the queue
mutex and the command dispatcher. -/
structure AutoloadState where
  running : Bool
  threadStarted : Bool
  queueMutexCreated : Bool
  commandsCreated : Bool

/-- The dormant state: nothing initialized, no stream read. -/
def dormant : AutoloadState :=
  { running := false, threadStarted := false, queueMutexCreated := false,
    commandsCreated := false }

/-- Embedding of `_ready`: return immediately (staying dormant) unless `_should_activate`;
otherwise create the mutex and dispatcher, set `_running` and start the
stdin reader thread. -/
def ready (os : OSFacts) : AutoloadState :=
  if !(should_activate os) then dormant
  else
    { running := true, threadStarted := true, queueMutexCreated := true,
      commandsCreated := true }

end MCPAutoload

/-! ### Concrete fixtures for witnesses and counterexamples -/
/-- A small concrete bridge message. -/
def msg0 : Bridge.BridgeMessage :=
  { id := "a".data, type := .request, command := "x".data, payload := some .null, error := none }

/-- A connected client with two pending requests with distinct ids. -/
def clientDemo : Bridge.ClientState :=
  { isConnected := true, capabilities := [], version := "1.0".data,
    pending := [("a".data, ⟨"ping".data, 5000⟩), ("b".data, ⟨"pong".data, 5000⟩)] }

/-- The client state reached from a fresh client by a successful handshake
that advertised the addon's four capabilities. -/
def clientHandshaken : Bridge.ClientState :=
  Bridge.handshakeApply Bridge.initialState (some "1.0".data)
    (some ["screenshot".data, "nodes".data, "input".data, "scene".data])

/-- A scene-tree fixture: the root viewport `root` with the current scene
`Main` and its child `Player`. -/
def demoPlayer : MCP.GNode :=
  ⟨"Player".data, "Sprite2D".data, "/root/Main/Player".data, [], [], []⟩

def demoMain : MCP.GNode :=
  ⟨"Main".data, "Node2D".data, "/root/Main".data, [], [], [demoPlayer]⟩

def demoRoot : MCP.GNode :=
  ⟨"root".data, "Window".data, "/root".data, [], [], [demoMain]⟩

def demoState : MCP.EngineState :=
  { tree := some ⟨demoRoot, some demoMain⟩, viewportImage := none, resourcePaths := [],
    changeSceneResult := 0, inputActions := [], callvResult := fun _ _ _ => .null }

/-- The same engine with no current scene loaded. -/
def demoStateNoScene : MCP.EngineState :=
  { demoState with tree := some ⟨demoRoot, none⟩ }

/-- A release (non-debug) build launched with the `--mcp-bridge` flag. -/
def osRelease : MCPAutoload.OSFacts :=
  { is_debug_build := false, cmdline_args := ["--mcp-bridge".data], cmdline_user_args := [] }


namespace Bridge

theorem charIndex_lt_length {c : Char} {l : List Char} {k : Nat}
    (h : charIndex c l = some k) : k < l.length := by
  induction l generalizing k with
  | nil => simp [charIndex] at h
  | cons x xs ih =>
    by_cases hx : x = c
    · simp [charIndex, hx] at h
      simp [← h]
    · simp [charIndex, hx] at h
      obtain ⟨j, hj, rfl⟩ := h
      have := ih hj
      simp
      omega

theorem charIndex_append_of_not_mem {c : Char} {l₁ : List Char} (l₂ : List Char)
    (h : c ∉ l₁) : charIndex c (l₁ ++ c :: l₂) = some l₁.length := by
  induction l₁ with
  | nil => simp [charIndex]
  | cons x xs ih =>
    have hx : x ≠ c := by intro he; exact h (by simp [he])
    have hxs : c ∉ xs := fun hm => h (by simp [hm])
    simp [charIndex, hx, ih hxs]

theorem charIndex_eq_none_of_not_mem {c : Char} {l : List Char}
    (h : c ∉ l) : charIndex c l = none := by
  induction l with
  | nil => simp [charIndex]
  | cons x xs ih =>
    have hx : x ≠ c := by intro he; exact h (by simp [he])
    have hxs : c ∉ xs := fun hm => h (by simp [hm])
    simp [charIndex, hx, ih hxs]

theorem substrIndex_of_isPrefixOf {pat l : List Char}
    (h : pat.isPrefixOf l = true) : substrIndex pat l = some 0 := by
  cases l with
  | nil => simp [substrIndex, h]
  | cons x xs => simp [substrIndex, h]

theorem substrIndex_eq_none {pat l : List Char} (hne : pat ≠ [])
    (h : pat.head? ∉ l.map some) : substrIndex pat l = none := by
  induction l with
  | nil =>
    have : ¬ pat.isPrefixOf [] = true := by
      cases pat with
      | nil => exact absurd rfl hne
      | cons p ps => simp [List.isPrefixOf]
    simp [substrIndex, this]
  | cons x xs ih =>
    have hx : ¬ pat.isPrefixOf (x :: xs) = true := by
      cases pat with
      | nil => exact absurd rfl hne
      | cons p ps =>
        intro hpre
        have : p = x := by
          simp [List.isPrefixOf] at hpre
          exact hpre.1
        exact h (by simp [List.head?, this])
    have hxs : pat.head? ∉ xs.map some := by
      intro hm; exact h (by simp at hm ⊢; right; exact hm)
    simp [substrIndex, hx, ih hxs]

theorem valLE_natDigitsAux : ∀ (fuel n : Nat), n ≤ fuel → valLE (natDigitsAux fuel n) = n := by
  intro fuel
  induction fuel with
  | zero => intro n h; interval_cases n; simp [natDigitsAux, valLE]
  | succ f ih =>
    intro n h
    by_cases hn : n = 0
    · simp [natDigitsAux, hn, valLE]
    · have hdiv : n / 10 ≤ f := by
        have : n / 10 < n := Nat.div_lt_self (Nat.pos_of_ne_zero hn) (by norm_num)
        omega
      simp [natDigitsAux, hn, valLE, ih _ hdiv]
      omega

theorem natDigitsAux_lt_ten : ∀ (fuel n : Nat), ∀ d ∈ natDigitsAux fuel n, d < 10 := by
  intro fuel
  induction fuel with
  | zero => intro n d hd; simp [natDigitsAux] at hd
  | succ f ih =>
    intro n d hd
    by_cases hn : n = 0
    · simp [natDigitsAux, hn] at hd
    · simp [natDigitsAux, hn] at hd
      rcases hd with h | h
      · omega
      · exact ih _ _ h

theorem natDigitsAux_ne_nil (fuel n : Nat) (hf : fuel ≠ 0) (hn : n ≠ 0) :
    natDigitsAux fuel n ≠ [] := by
  cases fuel with
  | zero => exact absurd rfl hf
  | succ f => simp [natDigitsAux, hn]

theorem digitChar_toNat {d : Nat} (h : d < 10) : (digitChar d).toNat = 48 + d := by
  interval_cases d <;> decide

theorem digitChar_isDigit {d : Nat} (h : d < 10) : (digitChar d).isDigit = true := by
  interval_cases d <;> decide

theorem natToChars_all_digit (n : Nat) : ∀ c ∈ natToChars n, c.isDigit = true := by
  intro c hc
  by_cases hn : n = 0
  · simp [natToChars, hn] at hc; rw [hc]; decide
  · simp [natToChars, hn] at hc
    obtain ⟨d, hd, rfl⟩ := hc
    exact digitChar_isDigit (natDigitsAux_lt_ten _ _ _ hd)

theorem natToChars_ne_nil (n : Nat) : natToChars n ≠ [] := by
  by_cases hn : n = 0
  · simp [natToChars, hn]
  · have hne := natDigitsAux_ne_nil n n (by omega) hn
    simp [natToChars, hn, natDigits]
    intro hcon
    exact hne hcon

theorem takeWhile_append_of_all {p : Char → Bool} {l r : List Char}
    (hl : ∀ c ∈ l, p c = true) (hr : ∀ c, r.head? = some c → p c = false) :
    (l ++ r).takeWhile p = l := by
  induction l with
  | nil =>
    cases r with
    | nil => rfl
    | cons c cs => simp [List.takeWhile, hr c rfl]
  | cons x xs ih =>
    have hx := hl x (by simp)
    simp [List.takeWhile, hx]
    exact ih (fun c hc => hl c (by simp [hc]))

theorem dropWhile_append_of_all {p : Char → Bool} {l r : List Char}
    (hl : ∀ c ∈ l, p c = true) (hr : ∀ c, r.head? = some c → p c = false) :
    (l ++ r).dropWhile p = r := by
  induction l with
  | nil =>
    cases r with
    | nil => rfl
    | cons c cs => simp [List.dropWhile, hr c rfl]
  | cons x xs ih =>
    have hx := hl x (by simp)
    simp [List.dropWhile, hx]
    exact ih (fun c hc => hl c (by simp [hc]))

theorem digitsToNat_go (ds : List Nat) (acc : Nat) (h : ∀ d ∈ ds, d < 10) :
    (ds.reverse.map digitChar).foldl (fun a c => 10 * a + (c.toNat - 48)) acc =
      acc * 10 ^ ds.length + valLE ds := by
  induction ds generalizing acc with
  | nil => simp [valLE]
  | cons d ds ih =>
    have hd : d < 10 := h d (by simp)
    have hds : ∀ x ∈ ds, x < 10 := fun x hx => h x (by simp [hx])
    simp only [List.reverse_cons, List.map_append, List.foldl_append, List.map_cons,
      List.map_nil, List.foldl_cons, List.foldl_nil, ih acc hds]
    rw [digitChar_toNat hd]
    have h48 : 48 + d - 48 = d := by omega
    rw [h48]
    simp only [valLE, List.length_cons, pow_succ]
    ring

theorem digitsToNat_natToChars (n : Nat) : digitsToNat (natToChars n) = n := by
  by_cases hn : n = 0
  · subst hn; decide
  · have hds := natDigitsAux_lt_ten n n
    have hval := valLE_natDigitsAux n n (le_refl n)
    simp only [natToChars, hn, if_false, digitsToNat, natDigits]
    rw [digitsToNat_go _ _ hds]
    simpa using hval

theorem parseNat_round (n : Nat) (rest : List Char) (hr : noDigitHead rest = true) :
    parseNat (natToChars n ++ rest) = some (n, rest) := by
  have hall := natToChars_all_digit n
  have hrest : ∀ c, rest.head? = some c → c.isDigit = false := by
    intro c hc
    cases rest with
    | nil => simp at hc
    | cons x xs =>
      simp at hc
      simp [noDigitHead, ← hc] at hr ⊢
      exact hr
  have htw := takeWhile_append_of_all hall hrest
  have hdw := dropWhile_append_of_all hall hrest
  have hne : natToChars n ≠ [] := natToChars_ne_nil n
  simp only [parseNat, htw, hdw]
  rw [if_neg (by simpa using hne)]
  rw [digitsToNat_natToChars]

theorem hexVal_digitCharHex {d : Nat} (h : d < 16) : hexVal (digitCharHex d) = some d := by
  interval_cases d <;> decide

theorem parseStringRest_round (s : List Char) (rest : List Char) :
    parseStringRest (escapeChars s ++ '"' :: rest) = some (s, rest) := by
  induction s with
  | nil => rw [escapeChars, List.nil_append, parseStringRest.eq_def]; simp
  | cons c cs ih =>
    by_cases hq : c = '"'
    · subst hq
      rw [escapeChars, escChar, if_pos rfl]
      simp only [List.cons_append, List.nil_append]
      rw [parseStringRest.eq_def]
      simp [ih]
    · by_cases hb : c = '\\'
      · subst hb
        rw [escapeChars, escChar, if_neg (by decide), if_pos rfl]
        simp only [List.cons_append, List.nil_append]
        rw [parseStringRest.eq_def]
        simp [ih]
      · by_cases hctl : c.toNat < 32
        · have h16 : c.toNat / 16 < 16 := by omega
          have h16b : c.toNat % 16 < 16 := by omega
          have harith : c.toNat / 16 * 16 + c.toNat % 16 = c.toNat := by omega
          rw [escapeChars, escChar, if_neg hq, if_neg hb, if_pos hctl]
          simp only [List.cons_append, List.nil_append]
          rw [parseStringRest.eq_def]
          simp only [if_neg (by decide : ¬ ('\\' : Char) = '"'), if_pos rfl,
            if_neg (by decide : ¬ ('u' : Char) = '"'),
            if_neg (by decide : ¬ ('u' : Char) = '\\'), if_pos rfl]
          have harith2 : (0 : Nat) * 4096 + 0 * 256 + c.toNat / 16 * 16 + c.toNat % 16 =
              c.toNat := by omega
          simp [hexVal_digitCharHex h16, hexVal_digitCharHex h16b,
            (by decide : hexVal '0' = some 0), ih, harith2, Char.ofNat_toNat]
          rw [harith, Char.ofNat_toNat]
        · have hne : escChar c = [c] := by simp [escChar, hq, hb, hctl]
          rw [escapeChars, hne]
          simp only [List.cons_append, List.nil_append]
          rw [parseStringRest.eq_def]
          simp [hq, hb, ih]

mutual

theorem sizeJ_pos : ∀ (j : Json), 1 ≤ sizeJ j
  | .null => le_refl 1
  | .bool _ => le_refl 1
  | .num _ => le_refl 1
  | .str _ => le_refl 1
  | .arr xs => by simp [sizeJ]
  | .obj fs => by simp [sizeJ]

theorem sizeElems_pos : ∀ (xs : List Json), 1 ≤ sizeElems xs
  | [] => le_refl 1
  | x :: xs => by
    have h1 := sizeJ_pos x
    have h2 := sizeElems_pos xs
    simp [sizeElems]
    omega

theorem sizeFields_pos : ∀ (fs : List (List Char × Json)), 1 ≤ sizeFields fs
  | [] => le_refl 1
  | (_, v) :: fs => by
    have h1 := sizeJ_pos v
    have h2 := sizeFields_pos fs
    simp [sizeFields]
    omega

end

/-- The first character a serialized JSON value can start with is never a
closing bracket or brace, and the serialization is never empty. -/
theorem jsonStringify_head (j : Json) :
    ∃ c cs, jsonStringify j = c :: cs ∧ c ≠ ']' ∧ c ≠ '}' := by
  cases j with
  | null => exact ⟨'n', _, rfl, by decide, by decide⟩
  | bool b => cases b with
    | true => exact ⟨'t', _, rfl, by decide, by decide⟩
    | false => exact ⟨'f', _, rfl, by decide, by decide⟩
  | num n =>
    by_cases hn : n < 0
    · exact ⟨'-', natToChars n.natAbs, by rw [jsonStringify, if_pos hn], by decide, by decide⟩
    · obtain ⟨c, cs, hcs⟩ := List.exists_cons_of_ne_nil (natToChars_ne_nil n.natAbs)
      have hdig : c.isDigit = true := natToChars_all_digit n.natAbs c (by simp [hcs])
      refine ⟨c, cs, by rw [jsonStringify, if_neg hn, hcs], ?_, ?_⟩
      · intro he; subst he; simp [Char.isDigit] at hdig
      · intro he; subst he; simp [Char.isDigit] at hdig
  | str s => exact ⟨'"', _, rfl, by decide, by decide⟩
  | arr xs => exact ⟨'[', _, rfl, by decide, by decide⟩
  | obj fs => exact ⟨'{', _, rfl, by decide, by decide⟩

theorem isDigit_ne_special {c : Char} (h : c.isDigit = true) :
    c ≠ 'n' ∧ c ≠ 't' ∧ c ≠ 'f' ∧ c ≠ '"' ∧ c ≠ '[' ∧ c ≠ '{' ∧ c ≠ '-' := by
  refine ⟨?_, ?_, ?_, ?_, ?_, ?_, ?_⟩ <;>
    (intro he; rw [he] at h; exact absurd h (by decide))

/-- The element serialization of a non-empty array starts with its first
element's serialization. -/
theorem stringifyElems_cons (x : Json) (xs : List Json) :
    ∃ t, stringifyElems (x :: xs) = jsonStringify x ++ t := by
  cases xs with
  | nil => exact ⟨[], by simp [stringifyElems]⟩
  | cons y ys => exact ⟨',' :: stringifyElems (y :: ys), by simp [stringifyElems]⟩

theorem stringifyElems_singleton (x : Json) : stringifyElems [x] = jsonStringify x := rfl

theorem stringifyElems_cons_cons (x y : Json) (ys : List Json) :
    stringifyElems (x :: y :: ys) = jsonStringify x ++ ',' :: stringifyElems (y :: ys) := rfl

theorem stringifyFields_singleton (k : List Char) (v : Json) :
    stringifyFields [(k, v)] = '"' :: escapeChars k ++ '"' :: ':' :: jsonStringify v := rfl

theorem stringifyFields_cons_cons (k : List Char) (v : Json) (kv2 : List Char × Json)
    (fs : List (List Char × Json)) :
    stringifyFields ((k, v) :: kv2 :: fs) =
      '"' :: escapeChars k ++ '"' :: ':' :: jsonStringify v ++ ',' :: stringifyFields (kv2 :: fs) :=
  rfl

theorem parse_stringify_round : ∀ fuel : Nat,
    (∀ (j : Json) (rest : List Char), sizeJ j ≤ fuel → noDigitHead rest = true →
      parseValue fuel (jsonStringify j ++ rest) = some (j, rest)) ∧
    (∀ (xs : List Json) (rest : List Char), xs ≠ [] → sizeElems xs ≤ fuel →
      noDigitHead rest = true →
      parseElems fuel (stringifyElems xs ++ ']' :: rest) = some (xs, rest)) ∧
    (∀ (fs : List (List Char × Json)) (rest : List Char), fs ≠ [] → sizeFields fs ≤ fuel →
      noDigitHead rest = true →
      parseFields fuel (stringifyFields fs ++ '}' :: rest) = some (fs, rest)) := by
  intro fuel
  induction fuel with
  | zero =>
    refine ⟨fun j _ hsz _ => absurd hsz (by have := sizeJ_pos j; omega),
      fun xs _ _ hsz _ => absurd hsz (by have := sizeElems_pos xs; omega),
      fun fs _ _ hsz _ => absurd hsz (by have := sizeFields_pos fs; omega)⟩
  | succ f ih =>
    obtain ⟨ihV, ihE, ihF⟩ := ih
    refine ⟨?_, ?_, ?_⟩
    · -- parseValue inverts jsonStringify
      intro j rest hsz hnd
      cases j with
      | null =>
        rw [jsonStringify]
        simp only [List.cons_append, List.nil_append]
        rw [parseValue.eq_def]
        simp
      | bool b =>
        cases b with
        | true =>
          rw [jsonStringify]
          simp only [List.cons_append, List.nil_append]
          rw [parseValue.eq_def]
          simp
        | false =>
          rw [jsonStringify]
          simp only [List.cons_append, List.nil_append]
          rw [parseValue.eq_def]
          simp
      | num n =>
        by_cases hn : n < 0
        · rw [jsonStringify, if_pos hn]
          simp only [List.cons_append]
          rw [parseValue.eq_def]
          simp only [if_neg (by decide : ¬ ('-' : Char) = 'n'),
            if_neg (by decide : ¬ ('-' : Char) = 't'),
            if_neg (by decide : ¬ ('-' : Char) = 'f'),
            if_neg (by decide : ¬ ('-' : Char) = '"'),
            if_neg (by decide : ¬ ('-' : Char) = '['),
            if_neg (by decide : ¬ ('-' : Char) = '{'), if_pos rfl]
          rw [parseNat_round n.natAbs rest hnd]
          simp only [Option.map_some']
          have hval : (-(n.natAbs : Int)) = n := by omega
          rw [hval]
          simp
        · obtain ⟨c, cs, hcs⟩ := List.exists_cons_of_ne_nil (natToChars_ne_nil n.natAbs)
          have hdig : c.isDigit = true := natToChars_all_digit n.natAbs c (by simp [hcs])
          obtain ⟨h1, h2, h3, h4, h5, h6, h7⟩ := isDigit_ne_special hdig
          rw [jsonStringify, if_neg hn, hcs]
          simp only [List.cons_append]
          rw [parseValue.eq_def]
          simp only [if_neg h1, if_neg h2, if_neg h3, if_neg h4, if_neg h5, if_neg h6,
            if_neg h7, if_pos hdig]
          rw [← List.cons_append, ← hcs, parseNat_round n.natAbs rest hnd]
          simp only [Option.map_some']
          have hval : ((n.natAbs : Int)) = n := by omega
          rw [hval]
      | str s =>
        rw [jsonStringify]
        simp only [List.cons_append, List.append_assoc, List.singleton_append]
        rw [parseValue.eq_def]
        simp [parseStringRest_round]
      | arr xs =>
        cases xs with
        | nil =>
          rw [jsonStringify, stringifyElems]
          simp only [List.cons_append, List.nil_append, List.singleton_append]
          rw [parseValue.eq_def]
          simp
        | cons x xs =>
          obtain ⟨c, cs, hc, hc1, hc2⟩ := jsonStringify_head x
          obtain ⟨t, ht⟩ := stringifyElems_cons x xs
          have hhead : (stringifyElems (x :: xs) ++ ']' :: rest).head? = some c := by
            rw [ht, hc]
            simp
          have hsz' : sizeElems (x :: xs) ≤ f := by
            rw [sizeJ] at hsz
            omega
          rw [jsonStringify]
          simp only [List.cons_append, List.append_assoc, List.singleton_append]
          rw [parseValue.eq_def]
          simp [hhead, hc1, ihE (x :: xs) rest (by simp) hsz' hnd]
      | obj fs =>
        cases fs with
        | nil =>
          rw [jsonStringify, stringifyFields]
          simp only [List.cons_append, List.nil_append, List.singleton_append]
          rw [parseValue.eq_def]
          simp
        | cons kv fs =>
          obtain ⟨k, v⟩ := kv
          have hhead : (stringifyFields ((k, v) :: fs) ++ '}' :: rest).head? = some '"' := by
            cases fs with
            | nil => rw [stringifyFields_singleton]; simp
            | cons kv2 fs2 => rw [stringifyFields_cons_cons]; simp
          have hsz' : sizeFields ((k, v) :: fs) ≤ f := by
            rw [sizeJ] at hsz
            omega
          rw [jsonStringify]
          simp only [List.cons_append, List.append_assoc, List.singleton_append]
          rw [parseValue.eq_def]
          simp [hhead, ihF ((k, v) :: fs) rest (by simp) hsz' hnd]
    · -- parseElems inverts stringifyElems for non-empty element lists
      intro xs rest hne hsz hnd
      cases xs with
      | nil => exact absurd rfl hne
      | cons x xs =>
        cases xs with
        | nil =>
          have hszx : sizeJ x ≤ f := by
            rw [sizeElems, sizeElems] at hsz
            omega
          rw [stringifyElems_singleton, parseElems.eq_def]
          simp [ihV x (']' :: rest) hszx (by rfl)]
        | cons y ys =>
          have hszx : sizeJ x ≤ f := by
            have hy := sizeElems_pos (y :: ys)
            rw [sizeElems] at hsz
            omega
          have hszy : sizeElems (y :: ys) ≤ f := by
            have hx := sizeJ_pos x
            rw [sizeElems] at hsz
            omega
          rw [stringifyElems_cons_cons]
          simp only [List.append_assoc, List.cons_append]
          rw [parseElems.eq_def]
          simp [ihV x (',' :: (stringifyElems (y :: ys) ++ ']' :: rest)) hszx (by rfl),
            ihE (y :: ys) rest (by simp) hszy hnd]
    · -- parseFields inverts stringifyFields for non-empty field lists
      intro fs rest hne hsz hnd
      cases fs with
      | nil => exact absurd rfl hne
      | cons kv fs =>
        obtain ⟨k, v⟩ := kv
        cases fs with
        | nil =>
          have hszv : sizeJ v ≤ f := by
            rw [sizeFields, sizeFields] at hsz
            omega
          rw [stringifyFields_singleton]
          simp only [List.cons_append, List.append_assoc]
          rw [parseFields.eq_def]
          simp [parseStringRest_round k (':' :: (jsonStringify v ++ '}' :: rest)),
            ihV v ('}' :: rest) hszv (by rfl)]
        | cons kv2 fs2 =>
          obtain ⟨k2, v2⟩ := kv2
          have hszv : sizeJ v ≤ f := by
            have h2 := sizeFields_pos ((k2, v2) :: fs2)
            rw [sizeFields] at hsz
            omega
          have hszf : sizeFields ((k2, v2) :: fs2) ≤ f := by
            have hv := sizeJ_pos v
            rw [sizeFields] at hsz
            omega
          rw [stringifyFields_cons_cons]
          simp only [List.cons_append, List.append_assoc]
          rw [parseFields.eq_def]
          simp [parseStringRest_round k
            (':' :: (jsonStringify v ++ ',' :: (stringifyFields ((k2, v2) :: fs2) ++ '}' :: rest))),
            ihV v (',' :: (stringifyFields ((k2, v2) :: fs2) ++ '}' :: rest)) hszv (by rfl),
            ihF ((k2, v2) :: fs2) rest (by simp) hszf hnd]

theorem char_toNat_lt (c : Char) : c.toNat < 1114112 := by
  have h := c.valid
  rcases h with h | h
  · exact Nat.lt_trans h (by norm_num)
  · exact h.2

theorem utf8EncodeChar_lt_256 (c : Char) : ∀ b ∈ utf8EncodeChar c, b < 256 := by
  intro b hb
  have hlt := char_toNat_lt c
  by_cases h1 : c.toNat < 128
  · simp [utf8EncodeChar, h1] at hb
    omega
  · by_cases h2 : c.toNat < 2048
    · simp [utf8EncodeChar, h1, h2] at hb
      rcases hb with h | h <;> omega
    · by_cases h3 : c.toNat < 65536
      · simp [utf8EncodeChar, h1, h2, h3] at hb
        rcases hb with h | h | h <;> omega
      · simp [utf8EncodeChar, h1, h2, h3] at hb
        rcases hb with h | h | h | h <;> omega

theorem utf8DecodeChar_encodeChar (c : Char) (bs : List Nat) :
    utf8DecodeChar (utf8EncodeChar c ++ bs) = some (c, bs) := by
  have hlt := char_toNat_lt c
  by_cases h1 : c.toNat < 128
  · rw [utf8EncodeChar]
    simp only [h1, if_pos, List.cons_append, List.nil_append]
    simp [utf8DecodeChar, h1, Char.ofNat_toNat]
  · by_cases h2 : c.toNat < 2048
    · rw [utf8EncodeChar]
      simp only [h1, h2, if_neg, if_pos, List.cons_append, List.nil_append]
      have hb1 : ¬ 192 + c.toNat / 64 < 128 := by omega
      have hb2 : ¬ 192 + c.toNat / 64 < 192 := by omega
      have hb3 : 192 + c.toNat / 64 < 224 := by omega
      have hbc : 128 ≤ 128 + c.toNat % 64 ∧ 128 + c.toNat % 64 < 192 := by omega
      simp [utf8DecodeChar, hb1, hb2, hb3, hbc]
      have harith : c.toNat / 64 * 64 + c.toNat % 64 = c.toNat := by omega
      rw [harith, Char.ofNat_toNat]
    · by_cases h3 : c.toNat < 65536
      · rw [utf8EncodeChar]
        simp only [h1, h2, h3, if_neg, if_pos, List.cons_append, List.nil_append]
        have hb1 : ¬ 224 + c.toNat / 4096 < 128 := by omega
        have hb2 : ¬ 224 + c.toNat / 4096 < 192 := by omega
        have hb3 : ¬ 224 + c.toNat / 4096 < 224 := by omega
        have hb4 : 224 + c.toNat / 4096 < 240 := by omega
        have hbc : (128 ≤ 128 + c.toNat / 64 % 64 ∧ 128 + c.toNat / 64 % 64 < 192) ∧
            128 ≤ 128 + c.toNat % 64 ∧ 128 + c.toNat % 64 < 192 := by omega
        simp [utf8DecodeChar, hb1, hb2, hb3, hb4, hbc]
        have harith : c.toNat / 4096 * 4096 + c.toNat / 64 % 64 * 64 + c.toNat % 64 =
            c.toNat := by omega
        rw [harith, Char.ofNat_toNat]
      · rw [utf8EncodeChar]
        simp only [h1, h2, h3, if_neg, List.cons_append, List.nil_append]
        have hb1 : ¬ 240 + c.toNat / 262144 < 128 := by omega
        have hb2 : ¬ 240 + c.toNat / 262144 < 192 := by omega
        have hb3 : ¬ 240 + c.toNat / 262144 < 224 := by omega
        have hb4 : ¬ 240 + c.toNat / 262144 < 240 := by omega
        have hb5 : 240 + c.toNat / 262144 < 248 := by omega
        have hbc : (128 ≤ 128 + c.toNat / 4096 % 64 ∧ 128 + c.toNat / 4096 % 64 < 192) ∧
            (128 ≤ 128 + c.toNat / 64 % 64 ∧ 128 + c.toNat / 64 % 64 < 192) ∧
            128 ≤ 128 + c.toNat % 64 ∧ 128 + c.toNat % 64 < 192 := by omega
        simp [utf8DecodeChar, hb1, hb2, hb3, hb4, hb5, hbc]
        have harith : c.toNat / 262144 * 262144 + c.toNat / 4096 % 64 * 4096 +
            c.toNat / 64 % 64 * 64 + c.toNat % 64 = c.toNat := by omega
        rw [harith, Char.ofNat_toNat]

theorem utf8EncodeChar_ne_nil (c : Char) : utf8EncodeChar c ≠ [] := by
  by_cases h1 : c.toNat < 128
  · simp [utf8EncodeChar, h1]
  · by_cases h2 : c.toNat < 2048
    · simp [utf8EncodeChar, h1, h2]
    · by_cases h3 : c.toNat < 65536 <;> simp [utf8EncodeChar, h1, h2, h3]

theorem length_le_utf8Encode_length (s : List Char) : s.length ≤ (utf8Encode s).length := by
  induction s with
  | nil => simp [utf8Encode]
  | cons c cs ih =>
    obtain ⟨b, bs, hb⟩ := List.exists_cons_of_ne_nil (utf8EncodeChar_ne_nil c)
    rw [utf8Encode, List.flatMap_cons, ← utf8Encode, hb]
    simp only [List.length_cons, List.cons_append, List.length_append]
    omega

theorem utf8DecodeAux_round : ∀ (fuel : Nat) (s : List Char), s.length ≤ fuel →
    utf8DecodeAux fuel (utf8Encode s) = some s := by
  intro fuel
  induction fuel with
  | zero =>
    intro s hs
    have : s = [] := by
      cases s with
      | nil => rfl
      | cons c cs => simp at hs
    subst this
    rfl
  | succ f ih =>
    intro s hs
    cases s with
    | nil => rfl
    | cons c cs =>
      obtain ⟨b, bs, hb⟩ := List.exists_cons_of_ne_nil (utf8EncodeChar_ne_nil c)
      have hdc : utf8DecodeChar (b :: (bs ++ utf8Encode cs)) = some (c, utf8Encode cs) := by
        have := utf8DecodeChar_encodeChar c (utf8Encode cs)
        rw [hb] at this
        simpa using this
      rw [utf8Encode, List.flatMap_cons, ← utf8Encode, hb]
      simp only [List.cons_append]
      rw [utf8DecodeAux]
      rw [hdc]
      simp [ih cs (by simp at hs; omega)]

theorem utf8Decode_utf8Encode (s : List Char) : utf8Decode (utf8Encode s) = some s :=
  utf8DecodeAux_round _ s (le_trans (length_le_utf8Encode_length s) (le_refl _))

theorem utf8Encode_lt_256 (s : List Char) : ∀ b ∈ utf8Encode s, b < 256 := by
  intro b hb
  rw [utf8Encode] at hb
  simp only [List.mem_flatMap] at hb
  obtain ⟨c, _, hbc⟩ := hb
  exact utf8EncodeChar_lt_256 c b hbc

theorem b64Val_b64Char {i : Nat} (h : i < 64) : b64Val (b64Char i) = some i := by
  interval_cases i <;> decide

theorem b64Char_ne_pad {i : Nat} (h : i < 64) : b64Char i ≠ '=' := by
  interval_cases i <;> decide

theorem b64Char_ne_brackets {i : Nat} (h : i < 64) : b64Char i ≠ '[' ∧ b64Char i ≠ ']' := by
  interval_cases i <;> exact ⟨by decide, by decide⟩

theorem base64ToBytes_bytesToBase64 : ∀ (bs : List Nat), (∀ x ∈ bs, x < 256) →
    base64ToBytes (bytesToBase64 bs) = some bs := by
  intro bs
  induction bs using bytesToBase64.induct with
  | case1 =>
    intro _
    rfl
  | case2 a =>
    intro hlt
    have ha : a < 256 := hlt a (by simp)
    have h1 : a / 4 < 64 := by omega
    have h2 : a % 4 * 16 < 64 := by omega
    rw [bytesToBase64, base64ToBytes, b64Val_b64Char h1, b64Val_b64Char h2]
    simp
    omega
  | case3 a b =>
    intro hlt
    have ha : a < 256 := hlt a (by simp)
    have hb : b < 256 := hlt b (by simp)
    have h1 : a / 4 < 64 := by omega
    have h2 : a % 4 * 16 + b / 16 < 64 := by omega
    have h3 : b % 16 * 4 < 64 := by omega
    rw [bytesToBase64, base64ToBytes, b64Val_b64Char h1, b64Val_b64Char h2]
    simp [b64Char_ne_pad h3, b64Val_b64Char h3]
    omega
  | case4 a b c rest ih =>
    intro hlt
    have ha : a < 256 := hlt a (by simp)
    have hb : b < 256 := hlt b (by simp)
    have hc : c < 256 := hlt c (by simp)
    have hrest : ∀ x ∈ rest, x < 256 := fun x hx => hlt x (by simp [hx])
    have h1 : a / 4 < 64 := by omega
    have h2 : a % 4 * 16 + b / 16 < 64 := by omega
    have h3 : b % 16 * 4 + c / 64 < 64 := by omega
    have h4 : c % 64 < 64 := by omega
    rw [bytesToBase64, base64ToBytes, b64Val_b64Char h1, b64Val_b64Char h2]
    simp [b64Char_ne_pad h3, b64Char_ne_pad h4, b64Val_b64Char h3, b64Val_b64Char h4, ih hrest]
    omega

theorem bytesToBase64_mem : ∀ (bs : List Nat), (∀ x ∈ bs, x < 256) →
    ∀ ch ∈ bytesToBase64 bs, (∃ i, i < 64 ∧ ch = b64Char i) ∨ ch = '=' := by
  intro bs
  induction bs using bytesToBase64.induct with
  | case1 =>
    intro _ ch hch
    simp [bytesToBase64] at hch
  | case2 a =>
    intro hlt ch hch
    have ha : a < 256 := hlt a (by simp)
    rw [bytesToBase64] at hch
    simp at hch
    rcases hch with h | h | h
    · exact Or.inl ⟨a / 4, by omega, h⟩
    · exact Or.inl ⟨a % 4 * 16, by omega, h⟩
    · exact Or.inr h
  | case3 a b =>
    intro hlt ch hch
    have ha : a < 256 := hlt a (by simp)
    have hb : b < 256 := hlt b (by simp)
    rw [bytesToBase64] at hch
    simp at hch
    rcases hch with h | h | h | h
    · exact Or.inl ⟨a / 4, by omega, h⟩
    · exact Or.inl ⟨a % 4 * 16 + b / 16, by omega, h⟩
    · exact Or.inl ⟨b % 16 * 4, by omega, h⟩
    · exact Or.inr h
  | case4 a b c rest ih =>
    intro hlt ch hch
    have ha : a < 256 := hlt a (by simp)
    have hb : b < 256 := hlt b (by simp)
    have hc : c < 256 := hlt c (by simp)
    have hrest : ∀ x ∈ rest, x < 256 := fun x hx => hlt x (by simp [hx])
    rw [bytesToBase64] at hch
    simp at hch
    rcases hch with h | h | h | h | h
    · exact Or.inl ⟨a / 4, by omega, h⟩
    · exact Or.inl ⟨a % 4 * 16 + b / 16, by omega, h⟩
    · exact Or.inl ⟨b % 16 * 4 + c / 64, by omega, h⟩
    · exact Or.inl ⟨c % 64, by omega, h⟩
    · exact ih hrest ch h

/-- Every character of a base64 encoding is outside the frame-marker
alphabet: never `[` and never `]`. -/
theorem bytesToBase64_no_brackets (bs : List Nat) (hlt : ∀ x ∈ bs, x < 256) :
    ∀ ch ∈ bytesToBase64 bs, ch ≠ '[' ∧ ch ≠ ']' := by
  intro ch hch
  rcases bytesToBase64_mem bs hlt ch hch with ⟨i, hi, rfl⟩ | rfl
  · exact b64Char_ne_brackets hi
  · exact ⟨by decide, by decide⟩

mutual

theorem sizeJ_le_len : ∀ (j : Json), sizeJ j ≤ (jsonStringify j).length
  | .null => by simp [sizeJ, jsonStringify]
  | .bool b => by cases b <;> simp [sizeJ, jsonStringify]
  | .num n => by
    have := natToChars_ne_nil n.natAbs
    by_cases hn : n < 0 <;> simp [sizeJ, jsonStringify, hn] <;>
      (cases hcs : natToChars n.natAbs with
        | nil => exact absurd hcs this
        | cons c cs => simp)
  | .str s => by simp [sizeJ, jsonStringify]
  | .arr xs => by
    have h := sizeElems_le_len xs
    simp [sizeJ, jsonStringify]
    omega
  | .obj fs => by
    have h := sizeFields_le_len fs
    simp [sizeJ, jsonStringify]
    omega

theorem sizeElems_le_len : ∀ (xs : List Json), sizeElems xs ≤ (stringifyElems xs).length + 1
  | [] => by simp [sizeElems, stringifyElems]
  | [x] => by
    have h := sizeJ_le_len x
    rw [stringifyElems_singleton]
    simp [sizeElems]
    omega
  | x :: y :: ys => by
    have h1 := sizeJ_le_len x
    have h2 := sizeElems_le_len (y :: ys)
    rw [stringifyElems_cons_cons]
    simp [sizeElems]
    rw [sizeElems] at h2
    omega

theorem sizeFields_le_len : ∀ (fs : List (List Char × Json)),
    sizeFields fs ≤ (stringifyFields fs).length + 1
  | [] => by simp [sizeFields, stringifyFields]
  | [(k, v)] => by
    have h := sizeJ_le_len v
    rw [stringifyFields_singleton]
    simp [sizeFields]
    omega
  | (k, v) :: kv2 :: fs => by
    have h1 := sizeJ_le_len v
    have h2 := sizeFields_le_len (kv2 :: fs)
    rw [stringifyFields_cons_cons]
    simp [sizeFields]
    rw [sizeFields] at h2
    omega

end

/-- The platform JSON parser inverts the platform JSON serializer. -/
theorem jsonParse_jsonStringify (j : Json) : jsonParse (jsonStringify j) = some j := by
  have hsz : sizeJ j ≤ (jsonStringify j).length + 1 :=
    le_trans (sizeJ_le_len j) (by omega)
  have h := (parse_stringify_round ((jsonStringify j).length + 1)).1 j [] hsz rfl
  rw [jsonParse]
  simp only [List.append_nil] at h
  rw [h]

theorem msgTypeOfChars_msgTypeChars (t : MsgType) :
    msgTypeOfChars (msgTypeChars t) = some t := by
  cases t <;> decide

theorem validateMessage_msgToJson (m : BridgeMessage) :
    validateMessage (msgToJson m) = some m := by
  obtain ⟨i, t, c, p, e⟩ := m
  cases p <;> cases e <;>
    simp [msgToJson, validateMessage, jGet, msgTypeOfChars_msgTypeChars,
      (by decide : ("type".data : List Char) ≠ "id".data),
      (by decide : ("command".data : List Char) ≠ "id".data),
      (by decide : ("command".data : List Char) ≠ "type".data),
      (by decide : ("payload".data : List Char) ≠ "id".data),
      (by decide : ("payload".data : List Char) ≠ "type".data),
      (by decide : ("payload".data : List Char) ≠ "command".data),
      (by decide : ("error".data : List Char) ≠ "id".data),
      (by decide : ("error".data : List Char) ≠ "type".data),
      (by decide : ("error".data : List Char) ≠ "command".data),
      (by decide : ("error".data : List Char) ≠ "payload".data)]

/-- Decoding inverts encoding: the frame markers are recognized and stripped,
base64 and UTF-8 round-trip, the JSON parser inverts the serializer, and
validation accepts every well-formed message. -/
theorem decodeMessage_encodeMessage (m : BridgeMessage) :
    decodeMessage (encodeMessage m) = some m := by
  have hbytes : ∀ x ∈ utf8Encode (jsonStringify (msgToJson m)), x < 256 :=
    utf8Encode_lt_256 _
  have hpre : PREFIX.isPrefixOf (encodeMessage m) = true := by
    rw [List.isPrefixOf_iff_prefix, encodeMessage, List.append_assoc]
    exact ⟨_, rfl⟩
  have hsuf : SUFFIX.isSuffixOf (encodeMessage m) = true := by
    rw [List.isSuffixOf_iff_suffix, encodeMessage]
    exact ⟨_, rfl⟩
  have hslice : ((encodeMessage m).drop PREFIX.length).dropLast =
      bytesToBase64 (utf8Encode (jsonStringify (msgToJson m))) := by
    rw [encodeMessage, List.append_assoc, List.drop_left]
    have : SUFFIX = [']'] := rfl
    rw [this, List.dropLast_concat]
  rw [decodeMessage, if_pos ⟨hpre, hsuf⟩, hslice]
  simp [base64ToBytes_bytesToBase64 _ hbytes, utf8Decode_utf8Encode,
    jsonParse_jsonStringify, validateMessage_msgToJson]

theorem rbracket_not_mem_PREFIX : (']' : Char) ∉ PREFIX := by decide

theorem extractLoop_nil (fuel : Nat) :
    extractLoop (fuel + 1) [] = { messages := [], remaining := [], nonBridgeText := [] } := by
  rw [extractLoop]
  have : substrIndex PREFIX [] = none := by decide
  rw [this]

/-- A buffer holding exactly one complete well-formed frame yields its
message, an empty remaining buffer, and no non-bridge text. -/
theorem extractLoop_whole_frame (fuel : Nat) (B : List Char) (m : BridgeMessage)
    (hB : ∀ ch ∈ B, ch ≠ ']')
    (hdec : decodeMessage (PREFIX ++ B ++ [']']) = some m)
    (hfuel : 1 ≤ fuel) :
    extractLoop (fuel + 1) (PREFIX ++ B ++ [']']) =
      { messages := [m], remaining := [], nonBridgeText := [] } := by
  have hpre : PREFIX.isPrefixOf (PREFIX ++ B ++ [']']) = true := by
    rw [List.isPrefixOf_iff_prefix, List.append_assoc]
    exact ⟨_, rfl⟩
  have hnotmem : (']' : Char) ∉ PREFIX ++ B := by
    intro hmem
    rcases List.mem_append.mp hmem with h | h
    · exact rbracket_not_mem_PREFIX h
    · exact hB _ h rfl
  have hidx : charIndex ']' (PREFIX ++ B ++ [']']) = some (PREFIX ++ B).length := by
    have := charIndex_append_of_not_mem ([] : List Char) hnotmem
    simpa using this
  have hlen : (PREFIX ++ B ++ [']']).length = (PREFIX ++ B).length + 1 := by
    rw [List.length_append]
    rfl
  obtain ⟨g, rfl⟩ : ∃ g, fuel = g + 1 := ⟨fuel - 1, by omega⟩
  rw [extractLoop, substrIndex_of_isPrefixOf hpre]
  simp only [charIndexFrom, List.drop_zero, hidx, Option.map_some', Nat.add_zero]
  have htake : (PREFIX ++ B ++ [']']).take ((PREFIX ++ B).length + 1) =
      PREFIX ++ B ++ [']'] := by
    rw [← hlen, List.take_length]
  have hdrop : (PREFIX ++ B ++ [']']).drop ((PREFIX ++ B).length + 1) = [] := by
    rw [← hlen, List.drop_length]
  rw [htake, hdrop, hdec, extractLoop_nil]
  simp

/-- A buffer holding the complete frame-opening marker but no closing marker
yet is preserved whole in `remaining`, with no non-bridge text. -/
theorem extractLoop_partial_frame (fuel : Nat) (C : List Char)
    (hC : ∀ ch ∈ C, ch ≠ ']') :
    extractLoop (fuel + 1) (PREFIX ++ C) =
      { messages := [], remaining := PREFIX ++ C, nonBridgeText := [] } := by
  have hpre : PREFIX.isPrefixOf (PREFIX ++ C) = true := by
    rw [List.isPrefixOf_iff_prefix]
    exact ⟨_, rfl⟩
  have hnotmem : (']' : Char) ∉ PREFIX ++ C := by
    intro hmem
    rcases List.mem_append.mp hmem with h | h
    · exact rbracket_not_mem_PREFIX h
    · exact hC _ h rfl
  rw [extractLoop, substrIndex_of_isPrefixOf hpre]
  simp only [charIndexFrom, List.drop_zero, charIndex_eq_none_of_not_mem hnotmem,
    Option.map_none', List.take_zero, List.drop_zero]

theorem lookupPending_erasePending_ne (p : List (List Char × PendingInfo))
    (a b : List Char) (hab : a ≠ b) :
    lookupPending (erasePending p a) b = lookupPending p b := by
  induction p with
  | nil => rfl
  | cons e rest ih =>
    by_cases he : e.1 = a
    · have hb : ¬ e.1 = b := by rw [he]; exact hab
      simp [erasePending, lookupPending, he, hb, ih, hab]
    · by_cases heb : e.1 = b
      · simp [erasePending, lookupPending, he, heb, Ne.symm hab]
      · simp [erasePending, lookupPending, he, heb, ih]

theorem lookupPending_erasePending_self (p : List (List Char × PendingInfo))
    (a : List Char) :
    lookupPending (erasePending p a) a = none := by
  induction p with
  | nil => rfl
  | cons e rest ih =>
    by_cases he : e.1 = a
    · simp [erasePending, he, ih]
    · simp [erasePending, lookupPending, he, ih]

theorem rejectAllPending_spec (p : List (List Char × PendingInfo)) (err : ClientError) :
    (rejectAllPending p err).1 = [] ∧
      (rejectAllPending p err).2 = p.map (fun e => .settle e.1 (.rejected err)) := by
  induction p with
  | nil => exact ⟨rfl, rfl⟩
  | cons e rest ih =>
    simp [rejectAllPending, ih.1, ih.2]

/-- A single complete encoded frame extracts to exactly its message, with an
empty remaining buffer and no non-bridge text. -/
theorem extractMessages_encodeMessage (m : BridgeMessage) :
    extractMessages (encodeMessage m) =
      { messages := [m], remaining := [], nonBridgeText := [] } := by
  have hlt := utf8Encode_lt_256 (jsonStringify (msgToJson m))
  have hB : ∀ ch ∈ bytesToBase64 (utf8Encode (jsonStringify (msgToJson m))), ch ≠ ']' :=
    fun ch hch => (bytesToBase64_no_brackets _ hlt ch hch).2
  have hshape : encodeMessage m =
      PREFIX ++ bytesToBase64 (utf8Encode (jsonStringify (msgToJson m))) ++ [']'] := rfl
  rw [extractMessages, hshape]
  exact extractLoop_whole_frame _ _ m hB
    (by rw [← hshape]; exact decodeMessage_encodeMessage m)
    (by rw [List.length_append]; simp)

/-- Splitting a single encoded frame at position zero or anywhere at or past
the end of the 12-character opening marker, then feeding the remainder of
the first call plus the rest of the frame to a second call, produces the
same messages, the same total non-bridge text and the same final remaining
buffer as one call on the whole frame. -/
theorem extractMessages_split (m : BridgeMessage) (i : Nat) (hi : i = 0 ∨ 12 ≤ i) :
    (extractMessages ((encodeMessage m).take i)).messages ++
        (extractMessages ((extractMessages ((encodeMessage m).take i)).remaining ++
          (encodeMessage m).drop i)).messages =
      (extractMessages (encodeMessage m)).messages ∧
    (extractMessages ((encodeMessage m).take i)).nonBridgeText ++
        (extractMessages ((extractMessages ((encodeMessage m).take i)).remaining ++
          (encodeMessage m).drop i)).nonBridgeText =
      (extractMessages (encodeMessage m)).nonBridgeText ∧
    (extractMessages ((extractMessages ((encodeMessage m).take i)).remaining ++
        (encodeMessage m).drop i)).remaining =
      (extractMessages (encodeMessage m)).remaining := by
  have hlt := utf8Encode_lt_256 (jsonStringify (msgToJson m))
  have hB : ∀ ch ∈ bytesToBase64 (utf8Encode (jsonStringify (msgToJson m))), ch ≠ ']' :=
    fun ch hch => (bytesToBase64_no_brackets _ hlt ch hch).2
  have hshape : encodeMessage m =
      PREFIX ++ bytesToBase64 (utf8Encode (jsonStringify (msgToJson m))) ++ [']'] := rfl
  have hwhole := extractMessages_encodeMessage m
  rcases hi with hi | hi
  · subst hi
    have h0 : (encodeMessage m).take 0 = [] := rfl
    have hnil : extractMessages ([] : List Char) =
        { messages := [], remaining := [], nonBridgeText := [] } := by
      rw [extractMessages]
      exact extractLoop_nil 0
    rw [h0, hnil]
    simp [hwhole]
  · by_cases hlen : i < (encodeMessage m).length
    · -- the first chunk carries the complete opening marker and part of the body
      have hPlen : PREFIX.length = 12 := rfl
      have hlen2 : (encodeMessage m).length =
          12 + (bytesToBase64 (utf8Encode (jsonStringify (msgToJson m)))).length + 1 := by
        rw [hshape, List.length_append, List.length_append, hPlen]
        rfl
      have hiB : i - 12 - (bytesToBase64 (utf8Encode (jsonStringify (msgToJson m)))).length = 0 := by
        omega
      have htake : (encodeMessage m).take i =
          PREFIX ++ (bytesToBase64 (utf8Encode (jsonStringify (msgToJson m)))).take (i - 12) := by
        rw [hshape, List.append_assoc, List.take_append_eq_append_take,
          List.take_of_length_le (by rw [hPlen]; omega), hPlen,
          List.take_append_eq_append_take, hiB]
        simp
      have hC : ∀ ch ∈ (bytesToBase64 (utf8Encode (jsonStringify (msgToJson m)))).take (i - 12),
          ch ≠ ']' :=
        fun ch hch => hB ch (List.take_subset _ _ hch)
      have hr1 : extractMessages ((encodeMessage m).take i) =
          { messages := [],
            remaining :=
              PREFIX ++ (bytesToBase64 (utf8Encode (jsonStringify (msgToJson m)))).take (i - 12),
            nonBridgeText := [] } := by
        rw [htake, extractMessages]
        exact extractLoop_partial_frame _ _ hC
      have hbuf2 : (PREFIX ++
            (bytesToBase64 (utf8Encode (jsonStringify (msgToJson m)))).take (i - 12)) ++
          (encodeMessage m).drop i = encodeMessage m := by
        rw [← htake]
        exact List.take_append_drop i _
      rw [hr1]
      simp only [List.nil_append]
      rw [hbuf2, hwhole]
      simp
    · -- the first chunk is the whole frame
      have htake : (encodeMessage m).take i = encodeMessage m :=
        List.take_of_length_le (by omega)
      have hdrop : (encodeMessage m).drop i = [] :=
        List.drop_eq_nil_of_le (by omega)
      have hnil : extractMessages ([] : List Char) =
          { messages := [], remaining := [], nonBridgeText := [] } := by
        rw [extractMessages]
        exact extractLoop_nil 0
      rw [htake, hdrop, hwhole]
      simp [hnil, hwhole]

end Bridge

/-! ### Claim theorems -/
/-- C1: for every valid bridge message `m` — a record with a string id, a
type among request/response/event, a string command, and a JSON-serializable
payload — decoding the encoding of `m` yields `m` again:
`decodeMessage (encodeMessage m) = some m`. -/
theorem C1_decode_encode_round_trip (m : Bridge.BridgeMessage) :
    Bridge.decodeMessage (Bridge.encodeMessage m) = some m :=
  Bridge.decodeMessage_encodeMessage m

/-- C2 as stated is false: splitting a valid encoded frame at position `i = 1`
— inside the 12-character opening marker — makes the first `extractMessages`
call classify the partial marker as non-frame console text, so the two calls
combined decode no message, a different total `nonBridgeText`, while the
single whole-frame call decodes one message. -/
theorem C2_counterexample :
    ¬ ((Bridge.extractMessages ((Bridge.encodeMessage msg0).take 1)).messages ++
          (Bridge.extractMessages
            ((Bridge.extractMessages ((Bridge.encodeMessage msg0).take 1)).remaining ++
              (Bridge.encodeMessage msg0).drop 1)).messages =
        (Bridge.extractMessages (Bridge.encodeMessage msg0)).messages ∧
      (Bridge.extractMessages ((Bridge.encodeMessage msg0).take 1)).nonBridgeText ++
          (Bridge.extractMessages
            ((Bridge.extractMessages ((Bridge.encodeMessage msg0).take 1)).remaining ++
              (Bridge.encodeMessage msg0).drop 1)).nonBridgeText =
        (Bridge.extractMessages (Bridge.encodeMessage msg0)).nonBridgeText ∧
      (Bridge.extractMessages
          ((Bridge.extractMessages ((Bridge.encodeMessage msg0).take 1)).remaining ++
            (Bridge.encodeMessage msg0).drop 1)).remaining =
        (Bridge.extractMessages (Bridge.encodeMessage msg0)).remaining) := by
  intro h
  have h1 := congrArg List.length h.1
  exact absurd h1 (by decide)

/-- C2 (amended): for every valid encoded frame and every split position `i`
that is zero or at least the length of the opening marker (12), calling
`extractMessages` on the first `i` characters and then on the returned
remaining buffer concatenated with the rest of the frame yields, across the
two calls combined, the same decoded messages, the same total non-frame
text, and the same final remaining buffer as a single call on the whole
frame; in particular a partial tail containing the complete opening marker
is never classified as non-frame console text.  (Splits that cut the opening
marker itself — `0 < i < 12` — misclassify the partial marker, as the
counterexample shows.) -/
theorem C2_amended_partial_delivery (m : Bridge.BridgeMessage) (i : Nat)
    (hi : i = 0 ∨ 12 ≤ i) :
    (Bridge.extractMessages ((Bridge.encodeMessage m).take i)).messages ++
        (Bridge.extractMessages
          ((Bridge.extractMessages ((Bridge.encodeMessage m).take i)).remaining ++
            (Bridge.encodeMessage m).drop i)).messages =
      (Bridge.extractMessages (Bridge.encodeMessage m)).messages ∧
    (Bridge.extractMessages ((Bridge.encodeMessage m).take i)).nonBridgeText ++
        (Bridge.extractMessages
          ((Bridge.extractMessages ((Bridge.encodeMessage m).take i)).remaining ++
            (Bridge.encodeMessage m).drop i)).nonBridgeText =
      (Bridge.extractMessages (Bridge.encodeMessage m)).nonBridgeText ∧
    (Bridge.extractMessages
        ((Bridge.extractMessages ((Bridge.encodeMessage m).take i)).remaining ++
          (Bridge.encodeMessage m).drop i)).remaining =
      (Bridge.extractMessages (Bridge.encodeMessage m)).remaining :=
  Bridge.extractMessages_split m i hi

/-- Witness for C2 (amended): the split at position 20 of the concrete frame
satisfies the hypothesis and the conclusion. -/
theorem C2_amended_witness :
    (20 = 0 ∨ 12 ≤ 20) ∧
    ((Bridge.extractMessages ((Bridge.encodeMessage msg0).take 20)).messages ++
        (Bridge.extractMessages
          ((Bridge.extractMessages ((Bridge.encodeMessage msg0).take 20)).remaining ++
            (Bridge.encodeMessage msg0).drop 20)).messages =
      (Bridge.extractMessages (Bridge.encodeMessage msg0)).messages ∧
    (Bridge.extractMessages ((Bridge.encodeMessage msg0).take 20)).nonBridgeText ++
        (Bridge.extractMessages
          ((Bridge.extractMessages ((Bridge.encodeMessage msg0).take 20)).remaining ++
            (Bridge.encodeMessage msg0).drop 20)).nonBridgeText =
      (Bridge.extractMessages (Bridge.encodeMessage msg0)).nonBridgeText ∧
    (Bridge.extractMessages
        ((Bridge.extractMessages ((Bridge.encodeMessage msg0).take 20)).remaining ++
          (Bridge.encodeMessage msg0).drop 20)).remaining =
      (Bridge.extractMessages (Bridge.encodeMessage msg0)).remaining) :=
  ⟨Or.inr (by decide), C2_amended_partial_delivery msg0 20 (Or.inr (by decide))⟩

/-- C3: when two requests with distinct ids `a ≠ b` are pending, delivering
their two response frames in either order settles each pending request with
exactly the payload of the response whose id matches its own; matching
depends only on the id, never on arrival order. -/
theorem C3_correlation_by_id (st : Bridge.ClientState) (a b ca cb : List Char)
    (pa pb : Option Bridge.Json) (ia ib : Bridge.PendingInfo)
    (hab : a ≠ b)
    (ha : Bridge.lookupPending st.pending a = some ia)
    (hb : Bridge.lookupPending st.pending b = some ib) :
    (Bridge.deliver st
        [{ id := a, type := .response, command := ca, payload := pa, error := none },
          { id := b, type := .response, command := cb, payload := pb, error := none }]).2 =
      [.settle a (.resolved pa), .settle b (.resolved pb)] ∧
    (Bridge.deliver st
        [{ id := b, type := .response, command := cb, payload := pb, error := none },
          { id := a, type := .response, command := ca, payload := pa, error := none }]).2 =
      [.settle b (.resolved pb), .settle a (.resolved pa)] := by
  constructor
  · simp [Bridge.deliver, Bridge.handleMessage, ha, hb,
      Bridge.lookupPending_erasePending_ne st.pending a b hab]
  · simp [Bridge.deliver, Bridge.handleMessage, ha, hb,
      Bridge.lookupPending_erasePending_ne st.pending b a (Ne.symm hab)]

/-- Witness for C3 at a concrete client with pending ids `a` and `b`. -/
theorem C3_witness :
    ("a".data ≠ "b".data) ∧
    (Bridge.lookupPending clientDemo.pending "a".data = some ⟨"ping".data, 5000⟩) ∧
    (Bridge.lookupPending clientDemo.pending "b".data = some ⟨"pong".data, 5000⟩) ∧
    ((Bridge.deliver clientDemo
        [{ id := "a".data, type := .response, command := "ping".data,
            payload := some (.num 1), error := none },
          { id := "b".data, type := .response, command := "pong".data,
            payload := some (.num 2), error := none }]).2 =
      [.settle "a".data (.resolved (some (.num 1))),
        .settle "b".data (.resolved (some (.num 2)))] ∧
    (Bridge.deliver clientDemo
        [{ id := "b".data, type := .response, command := "pong".data,
            payload := some (.num 2), error := none },
          { id := "a".data, type := .response, command := "ping".data,
            payload := some (.num 1), error := none }]).2 =
      [.settle "b".data (.resolved (some (.num 2))),
        .settle "a".data (.resolved (some (.num 1)))]) :=
  ⟨by decide, rfl, rfl,
    C3_correlation_by_id clientDemo "a".data "b".data "ping".data "pong".data
      (some (.num 1)) (some (.num 2)) ⟨"ping".data, 5000⟩ ⟨"pong".data, 5000⟩
      (by decide) rfl rfl⟩

/-- C4: when a pending request's deadline elapses (its timeout callback
fires before a matching response arrived), the caller is rejected with a
timeout error carrying the request's command and deadline, the entry is
removed from the pending set, and a response carrying that id arriving
afterwards is ignored: it settles nothing and leaves the state unchanged. -/
theorem C4_timeout_removes_pending (st : Bridge.ClientState) (rid : List Char)
    (info : Bridge.PendingInfo)
    (h : Bridge.lookupPending st.pending rid = some info) :
    (Bridge.timeoutFire st rid).2 =
      [.settle rid (.rejected (.timedOut info.command info.timeoutMs))] ∧
    Bridge.lookupPending (Bridge.timeoutFire st rid).1.pending rid = none ∧
    ∀ (ca : List Char) (p e : Option Bridge.Json),
      Bridge.handleMessage (Bridge.timeoutFire st rid).1
        { id := rid, type := .response, command := ca, payload := p, error := e } =
        ((Bridge.timeoutFire st rid).1, []) := by
  refine ⟨by simp [Bridge.timeoutFire, h], ?_, ?_⟩
  · simp [Bridge.timeoutFire, h, Bridge.lookupPending_erasePending_self]
  · intro ca p e
    simp [Bridge.timeoutFire, h, Bridge.handleMessage,
      Bridge.lookupPending_erasePending_self]

/-- Witness for C4 at a concrete client with a pending id `a`. -/
theorem C4_witness :
    (Bridge.lookupPending clientDemo.pending "a".data = some ⟨"ping".data, 5000⟩) ∧
    ((Bridge.timeoutFire clientDemo "a".data).2 =
      [.settle "a".data (.rejected (.timedOut "ping".data 5000))] ∧
    Bridge.lookupPending (Bridge.timeoutFire clientDemo "a".data).1.pending "a".data = none ∧
    ∀ (ca : List Char) (p e : Option Bridge.Json),
      Bridge.handleMessage (Bridge.timeoutFire clientDemo "a".data).1
        { id := "a".data, type := .response, command := ca, payload := p, error := e } =
        ((Bridge.timeoutFire clientDemo "a".data).1, [])) :=
  ⟨rfl, C4_timeout_removes_pending clientDemo "a".data ⟨"ping".data, 5000⟩ rfl⟩

/-- C5: when the target process exits or errors while requests are pending,
every pending request is rejected with a connection-lost error
(`Process exited` / `Process error`, never a timeout error), and the pending
set becomes empty. -/
theorem C5_disconnect_sweep (st : Bridge.ClientState) :
    (Bridge.processExit st).1.pending = [] ∧
    (Bridge.processExit st).1.isConnected = false ∧
    (Bridge.processExit st).2 =
      st.pending.map (fun e => .settle e.1 (.rejected .processExited)) ++ [.disconnected] ∧
    (Bridge.processErrorEvent st).1.pending = [] ∧
    (Bridge.processErrorEvent st).2 =
      st.pending.map (fun e => .settle e.1 (.rejected .processError)) ++ [.disconnected] := by
  have h1 := Bridge.rejectAllPending_spec st.pending .processExited
  have h2 := Bridge.rejectAllPending_spec st.pending .processError
  exact ⟨by simp [Bridge.processExit, h1.1], by simp [Bridge.processExit],
    by simp [Bridge.processExit, h1.2], by simp [Bridge.processErrorEvent, h2.1],
    by simp [Bridge.processErrorEvent, h2.2]⟩

/-- C6: before a successful handshake (`isConnected = false`), `sendRequest`
with any command other than `handshake` throws a not-connected error — a
`SendResult.threw`, which by construction registers no pending request and
writes nothing to the target's stdin — while `sendRequest` with the
`handshake` command is permitted: it registers the pending request and
writes the encoded frame. -/
theorem C6_not_connected_gate (st : Bridge.ClientState) (newId command : List Char)
    (payload : Option Bridge.Json) (timeoutMs : Nat)
    (hconn : st.isConnected = false) (hcmd : command ≠ "handshake".data) :
    Bridge.sendRequest st newId command payload timeoutMs = .threw .notConnected ∧
    ∀ (p2 : Option Bridge.Json) (t2 : Nat),
      Bridge.sendRequest st newId "handshake".data p2 t2 =
        .sent { st with pending := st.pending ++ [(newId, ⟨"handshake".data, t2⟩)] }
          (Bridge.encodeMessage { id := newId, type := .request, command := "handshake".data, payload := p2, error := none } ++ ['\n']) := by
  constructor
  · simp [Bridge.sendRequest, hconn, hcmd]
  · intro p2 t2
    simp [Bridge.sendRequest]

/-- Witness for C6 at a fresh (unconnected) client and the `get_node`
command. -/
theorem C6_witness :
    (Bridge.initialState.isConnected = false) ∧
    ("get_node".data ≠ "handshake".data) ∧
    (Bridge.sendRequest Bridge.initialState "u1".data "get_node".data none 5000 =
      .threw .notConnected ∧
    ∀ (p2 : Option Bridge.Json) (t2 : Nat),
      Bridge.sendRequest Bridge.initialState "u1".data "handshake".data p2 t2 =
        .sent { Bridge.initialState with
            pending := Bridge.initialState.pending ++ [("u1".data, ⟨"handshake".data, t2⟩)] }
          (Bridge.encodeMessage { id := "u1".data, type := .request, command := "handshake".data, payload := p2, error := none } ++ ['\n'])) :=
  ⟨rfl, by decide,
    C6_not_connected_gate Bridge.initialState "u1".data "get_node".data none 5000 rfl
      (by decide)⟩

/-- C7 as stated is false: after a successful handshake that advertised
`screenshot`, the process-exit handler clears only `isConnected` and the
pending set; the capability list survives, so `hasCapability "screenshot"`
still returns `true` after the exit event, not `false`. -/
theorem C7_counterexample :
    Bridge.hasCapability (Bridge.processExit clientHandshaken).1 "screenshot".data = true := by
  decide

/-- C7 (amended): on target-process exit or error the client resets
`isConnected` and sweeps the pending set, but the capability set and the
protocol version are NOT cleared by either handler: they keep the values
recorded by the last successful handshake, and `hasCapability` answers
exactly as it did before the exit or error event. -/
theorem C7_amended_state_after_exit (st : Bridge.ClientState) :
    ((Bridge.processExit st).1.isConnected = false ∧
     (Bridge.processExit st).1.pending = [] ∧
     (Bridge.processExit st).1.capabilities = st.capabilities ∧
     (Bridge.processExit st).1.version = st.version ∧
     ∀ cap, Bridge.hasCapability (Bridge.processExit st).1 cap =
       Bridge.hasCapability st cap) ∧
    ((Bridge.processErrorEvent st).1.isConnected = false ∧
     (Bridge.processErrorEvent st).1.pending = [] ∧
     (Bridge.processErrorEvent st).1.capabilities = st.capabilities ∧
     (Bridge.processErrorEvent st).1.version = st.version ∧
     ∀ cap, Bridge.hasCapability (Bridge.processErrorEvent st).1 cap =
       Bridge.hasCapability st cap) := by
  have h1 := Bridge.rejectAllPending_spec st.pending .processExited
  have h2 := Bridge.rejectAllPending_spec st.pending .processError
  exact ⟨⟨by simp [Bridge.processExit], by simp [Bridge.processExit, h1.1],
      by simp [Bridge.processExit], by simp [Bridge.processExit],
      fun cap => by simp [Bridge.processExit, Bridge.hasCapability]⟩,
    ⟨by simp [Bridge.processErrorEvent], by simp [Bridge.processErrorEvent, h2.1],
      by simp [Bridge.processErrorEvent], by simp [Bridge.processErrorEvent],
      fun cap => by simp [Bridge.processErrorEvent, Bridge.hasCapability]⟩⟩

/-- C8: every inbound request whose command string is not one of the known
commands gets a structured error response carrying the request's id with
error code `UNKNOWN_COMMAND`, and the dispatcher never raises: it returns
`some` response. -/
theorem C8_unknown_command (st : MCP.EngineState) (msg : List (List Char × Bridge.Json))
    (command request_id : List Char)
    (hcmd : MCP.asString (MCP.dictGet msg "command".data (.str [])) = some command)
    (hid : MCP.asString (MCP.dictGet msg "id".data (.str [])) = some request_id)
    (hunk : command ∉ MCP.knownCommands) :
    MCP.execute st msg =
      some (MCP.create_error_response request_id command "UNKNOWN_COMMAND".data
        ("Unknown command: ".data ++ command)) := by
  simp [MCP.knownCommands] at hunk
  obtain ⟨h1, h2, h3, h4, h5, h6, h7, h8, h9, h10, h11⟩ := hunk
  simp [MCP.execute, hcmd, hid, h1, h2, h3, h4, h5, h6, h7, h8, h9, h10, h11]

/-- Witness for C8: dispatching `{command: "nonexistent"}` returns the
`UNKNOWN_COMMAND` error response. -/
theorem C8_witness :
    (MCP.asString (MCP.dictGet [("id".data, .str "1".data),
        ("command".data, .str "nonexistent".data)] "command".data (.str [])) =
      some "nonexistent".data) ∧
    (MCP.asString (MCP.dictGet [("id".data, .str "1".data),
        ("command".data, .str "nonexistent".data)] "id".data (.str [])) =
      some "1".data) ∧
    ("nonexistent".data ∉ MCP.knownCommands) ∧
    MCP.execute demoState [("id".data, .str "1".data),
        ("command".data, .str "nonexistent".data)] =
      some (MCP.create_error_response "1".data "nonexistent".data "UNKNOWN_COMMAND".data
        ("Unknown command: ".data ++ "nonexistent".data)) :=
  ⟨rfl, rfl, by decide,
    C8_unknown_command demoState _ "nonexistent".data "1".data rfl rfl (by decide)⟩

/-- C9: evaluation of the dispatcher at the failing input.  In the fixture
the node `Main` exists directly under the application root (named `root`),
yet `get_node` with the absolute path `/root/Main` returns `NODE_NOT_FOUND`:
`_get_node_by_path` strips the five characters `/root` and passes the
still-absolute remainder `/Main` to `get_node_or_null`, whose absolute
resolution requires the first segment to equal the root node's name `root`.
Relative resolution (`Player` from the current scene) and the fail-closed
no-current-scene case behave as the claim states. -/
theorem C9_absolute_path_broken :
    MCP.execute demoState [("id".data, .str "1".data), ("type".data, .str "request".data),
        ("command".data, .str "get_node".data),
        ("payload".data, .obj [("path".data, .str "/root/Main".data)])] =
      some (MCP.create_error_response "1".data "get_node".data "NODE_NOT_FOUND".data
        ("Node not found: ".data ++ "/root/Main".data)) ∧
    MCP.getChildByName (MCP.GNode.children demoRoot) "Main".data = some demoMain ∧
    MCP.execute demoState [("id".data, .str "2".data), ("type".data, .str "request".data),
        ("command".data, .str "get_node".data),
        ("payload".data, .obj [("path".data, .str "Player".data)])] =
      some (MCP.create_response "2".data "get_node".data
        (.obj [("node".data, MCP.serialize_node demoPlayer false)])) ∧
    MCP.execute demoStateNoScene [("id".data, .str "3".data), ("type".data, .str "request".data),
        ("command".data, .str "get_node".data),
        ("payload".data, .obj [("path".data, .str "Player".data)])] =
      some (MCP.create_error_response "3".data "get_node".data "NODE_NOT_FOUND".data
        ("Node not found: ".data ++ "Player".data)) :=
  ⟨rfl, rfl, rfl, rfl⟩

/-- C10: the target-side bridge activates — starts the stdin reader thread,
creates the inbound queue's mutex, the dispatcher and the run flag — exactly
when the build is a debug build and the `--mcp-bridge` flag is present among
the engine or user command-line arguments; in particular, in a non-debug
(release) build `_ready` leaves the bridge entirely dormant even when the
flag is passed, and no stream-reading thread is started. -/
theorem C10_activation_gate (os : MCPAutoload.OSFacts) :
    ((MCPAutoload.ready os).threadStarted =
      (os.is_debug_build &&
        (os.cmdline_args.contains "--mcp-bridge".data ||
          os.cmdline_user_args.contains "--mcp-bridge".data))) ∧
    ((MCPAutoload.ready os).running = (MCPAutoload.ready os).threadStarted) ∧
    ((MCPAutoload.ready os).queueMutexCreated = (MCPAutoload.ready os).threadStarted) ∧
    ((MCPAutoload.ready os).commandsCreated = (MCPAutoload.ready os).threadStarted) ∧
    (os.is_debug_build = false → MCPAutoload.ready os = MCPAutoload.dormant) := by
  have hsa : MCPAutoload.should_activate os =
      (os.is_debug_build &&
        (os.cmdline_args.contains "--mcp-bridge".data ||
          os.cmdline_user_args.contains "--mcp-bridge".data)) := by
    rw [MCPAutoload.should_activate]
    cases os.is_debug_build <;> simp
  refine ⟨?_, ?_, ?_, ?_, ?_⟩ <;> rw [MCPAutoload.ready, hsa]
  · cases hb : (os.is_debug_build &&
      (os.cmdline_args.contains "--mcp-bridge".data ||
        os.cmdline_user_args.contains "--mcp-bridge".data)) <;>
      simp [MCPAutoload.dormant]
  · cases hb : (os.is_debug_build &&
      (os.cmdline_args.contains "--mcp-bridge".data ||
        os.cmdline_user_args.contains "--mcp-bridge".data)) <;>
      simp [MCPAutoload.dormant, MCPAutoload.ready, hsa]
  · cases hb : (os.is_debug_build &&
      (os.cmdline_args.contains "--mcp-bridge".data ||
        os.cmdline_user_args.contains "--mcp-bridge".data)) <;>
      simp [MCPAutoload.dormant, MCPAutoload.ready, hsa]
  · cases hb : (os.is_debug_build &&
      (os.cmdline_args.contains "--mcp-bridge".data ||
        os.cmdline_user_args.contains "--mcp-bridge".data)) <;>
      simp [MCPAutoload.dormant, MCPAutoload.ready, hsa]
  · intro hdbg
    simp [hdbg]

/-- Witness for C10's release-build clause: a release build launched with the
flag stays dormant. -/
theorem C10_witness :
    (osRelease.is_debug_build = false) ∧
    MCPAutoload.ready osRelease = MCPAutoload.dormant :=
  ⟨rfl, (C10_activation_gate osRelease).2.2.2.2 rfl⟩
